import Mathlib

/-!
# Verification of the profile inheritance & diff/merge engine

Shallow embedding of `src/file.ts` (the `FileRepository` class) and the
parts of `src/repository.ts` it relies on.  Pure computations (the
extension set diff/merge, the per-profile document resolution) are
translated into executable Lean functions; the file system, the external
key-value store and the host editor are modelled as an explicit
environment record, and the effectful orchestration functions are
translated into a trace monad that records every external query and
mutation in program order.
-/

namespace SyncSettings

/-- `ExtensionId` from `src/repository.ts`: `id` is the `publisher.name`
merge key, `uuid` the marketplace identity. -/
structure ExtensionId where
  id : String
  uuid : String
deriving DecidableEq, Repr

/-- `ExtensionList` from `src/repository.ts` (the `builtin` field is not
used by any function under verification and is omitted). -/
structure ExtensionList where
  disabled : List ExtensionId
  enabled : List ExtensionId
  uninstall : Option (List ExtensionId) := none
deriving DecidableEq, Repr

/-- `NIL_UUID` constant from `src/file.ts`. -/
def NIL_UUID : String := "00000000-0000-0000-0000-000000000000"

/-- The list of `id` fields of an extension list (the merge keys). -/
def ids (l : List ExtensionId) : List String := l.map (·.id)

/-- One iteration of the `diff.disabled` loop of
`FileRepository.applyExtensionsDiff`: remove the first entry of `enabled`
with the same id (`findIndex` + `splice`), then append the extension to
`disabled` unless an entry with the same id is already present. -/
def disableStep (de : List ExtensionId × List ExtensionId) (ext : ExtensionId) :
    List ExtensionId × List ExtensionId :=
  let enabled := de.2.eraseP (fun item => item.id == ext.id)
  let disabled := if de.1.any (fun item => item.id == ext.id) then de.1 else de.1 ++ [ext]
  (disabled, enabled)

/-- One iteration of the `diff.enabled` loop of
`FileRepository.applyExtensionsDiff` (symmetric to `disableStep`). -/
def enableStep (de : List ExtensionId × List ExtensionId) (ext : ExtensionId) :
    List ExtensionId × List ExtensionId :=
  let disabled := de.1.eraseP (fun item => item.id == ext.id)
  let enabled := if de.2.any (fun item => item.id == ext.id) then de.2 else de.2 ++ [ext]
  (disabled, enabled)

/-- One iteration of the `diff.uninstall` loop of
`FileRepository.applyExtensionsDiff`: remove the first entry with this id
from `disabled` if there is one, otherwise from `enabled`. -/
def uninstallStep (de : List ExtensionId × List ExtensionId) (ext : ExtensionId) :
    List ExtensionId × List ExtensionId :=
  if de.1.any (fun item => item.id == ext.id) then
    (de.1.eraseP (fun item => item.id == ext.id), de.2)
  else
    (de.1, de.2.eraseP (fun item => item.id == ext.id))

/-- `FileRepository.applyExtensionsDiff`: the three loops, in source
order, starting from the base list's `disabled`/`enabled`; the result
carries no `uninstall` field. -/
def applyExtensionsDiff (base diff : ExtensionList) : ExtensionList :=
  let p1 := diff.disabled.foldl disableStep (base.disabled, base.enabled)
  let p2 := diff.enabled.foldl enableStep p1
  let p3 := (diff.uninstall.getD []).foldl uninstallStep p2
  { disabled := p3.1, enabled := p3.2 }

/-- Modelled from the spec: the `arrayDiff` helper
(`src/utils/array-diff.ts`, not included in the sources) — "take the
asymmetric set difference": the elements of `a` that do not occur in `b`,
in the order of `a`. -/
def arrayDiff (a b : List String) : List String :=
  a.filter (fun x => !(b.contains x))

/-- The `ids` record built in `FileRepository.serializeExtensions`: the
record maps each id to the last extension with that id pushed into it,
so a lookup finds the last occurrence in the concatenated list. -/
def idsMap (l : List ExtensionId) (s : String) : Option ExtensionId :=
  l.reverse.find? (fun e => e.id == s)

/-- The diff computation of `FileRepository.serializeExtensions` in the
inheriting branch: `disabled`/`enabled` are the live-minus-stored id
differences, `uninstall` is the stored-minus-live id difference over the
union, each mapped back to extension records through the `ids` record;
the `uninstall` key is emitted only when non-empty. -/
def computeExtensionsDiff (editor profile : ExtensionList) : ExtensionList :=
  let allExts := profile.disabled ++ profile.enabled ++ editor.disabled ++ editor.enabled
  let disabled := (arrayDiff (ids editor.disabled) (ids profile.disabled)).filterMap (idsMap allExts)
  let enabled := (arrayDiff (ids editor.enabled) (ids profile.enabled)).filterMap (idsMap allExts)
  let uninstall := (arrayDiff (ids (profile.disabled ++ profile.enabled))
      (ids (editor.disabled ++ editor.enabled))).filterMap (idsMap allExts)
  { disabled := disabled, enabled := enabled,
    uninstall := if uninstall.isEmpty then none else some uninstall }

/-- The well-formedness invariant of an extension partition: no duplicate
ids within each of `disabled` and `enabled`, and the two are disjoint
by id. -/
def InvList (d e : List ExtensionId) : Prop :=
  (ids d).Nodup ∧ (ids e).Nodup ∧ ∀ x, x ∈ ids d → x ∉ ids e

lemma ids_append (a b : List ExtensionId) : ids (a ++ b) = ids a ++ ids b := by
  simp [ids]

lemma ids_push (d : List ExtensionId) (ext : ExtensionId) :
    ids (d ++ [ext]) = ids d ++ [ext.id] := by
  simp [ids]

lemma any_id_iff {l : List ExtensionId} {u : String} :
    l.any (fun item => item.id == u) = true ↔ u ∈ ids l := by
  simp [List.any_eq_true, ids, List.mem_map]

lemma ids_eraseP_sublist (e : List ExtensionId) (u : String) :
    (ids (e.eraseP (fun item => item.id == u))).Sublist (ids e) := by
  unfold ids
  exact (List.eraseP_sublist e).map (·.id)

lemma nodup_ids_eraseP {e : List ExtensionId} (h : (ids e).Nodup) (u : String) :
    (ids (e.eraseP (fun item => item.id == u))).Nodup :=
  h.sublist (ids_eraseP_sublist e u)

lemma mem_map_id_eraseP {e : List ExtensionId} (h : (e.map (·.id)).Nodup) {u x : String} :
    x ∈ (e.eraseP (fun item => item.id == u)).map (·.id) ↔ x ∈ e.map (·.id) ∧ x ≠ u := by
  induction e with
  | nil => simp
  | cons a t ih =>
    rw [List.map_cons, List.nodup_cons] at h
    obtain ⟨hnm, hnd⟩ := h
    by_cases hau : a.id = u
    · subst hau
      rw [List.eraseP_cons_of_pos (by simp)]
      simp only [List.map_cons, List.mem_cons]
      constructor
      · intro hx
        exact ⟨Or.inr hx, fun heq => hnm (heq ▸ hx)⟩
      · rintro ⟨hx | hx, hne⟩
        · exact absurd hx hne
        · exact hx
    · rw [List.eraseP_cons_of_neg (by simp [hau])]
      simp only [List.map_cons, List.mem_cons, ih hnd]
      constructor
      · rintro (rfl | ⟨hx, hne⟩)
        · exact ⟨Or.inl rfl, hau⟩
        · exact ⟨Or.inr hx, hne⟩
      · rintro ⟨hx | hx, hne⟩
        · exact Or.inl hx
        · exact Or.inr ⟨hx, hne⟩

lemma mem_ids_eraseP {e : List ExtensionId} (h : (ids e).Nodup) {u x : String} :
    x ∈ ids (e.eraseP (fun item => item.id == u)) ↔ x ∈ ids e ∧ x ≠ u := by
  unfold ids at h ⊢
  exact mem_map_id_eraseP h

lemma disableStep_fst_mem {de : List ExtensionId × List ExtensionId} {ext : ExtensionId}
    {x : String} :
    x ∈ ids (disableStep de ext).1 ↔ x ∈ ids de.1 ∨ x = ext.id := by
  unfold disableStep
  by_cases h : de.1.any (fun item => item.id == ext.id) = true
  · have hm : ext.id ∈ ids de.1 := any_id_iff.mp h
    rw [if_pos h]
    constructor
    · exact Or.inl
    · rintro (hx | rfl)
      · exact hx
      · exact hm
  · rw [if_neg h, ids_push, List.mem_append, List.mem_singleton]

lemma disableStep_snd_mem {de : List ExtensionId × List ExtensionId} {ext : ExtensionId}
    (h : (ids de.2).Nodup) {x : String} :
    x ∈ ids (disableStep de ext).2 ↔ x ∈ ids de.2 ∧ x ≠ ext.id := by
  unfold disableStep
  exact mem_ids_eraseP h

lemma invList_disableStep {de : List ExtensionId × List ExtensionId} {ext : ExtensionId}
    (h : InvList de.1 de.2) : InvList (disableStep de ext).1 (disableStep de ext).2 := by
  obtain ⟨nd, ne, dis⟩ := h
  refine ⟨?_, ?_, ?_⟩
  · show (ids (if de.1.any (fun item => item.id == ext.id) then de.1 else de.1 ++ [ext])).Nodup
    by_cases hc : de.1.any (fun item => item.id == ext.id) = true
    · rw [if_pos hc]; exact nd
    · have hm : ext.id ∉ ids de.1 := fun hmem => hc (any_id_iff.mpr hmem)
      rw [if_neg hc, ids_push]
      exact List.Nodup.append nd (List.nodup_singleton _)
        (by intro a ha hb; simp at hb; subst hb; exact hm ha)
  · exact nodup_ids_eraseP ne _
  · intro x hx
    rw [disableStep_snd_mem ne]
    rcases disableStep_fst_mem.mp hx with hx1 | rfl
    · rintro ⟨hmem, -⟩; exact dis x hx1 hmem
    · rintro ⟨-, hne⟩; exact hne rfl

lemma enableStep_snd_mem {de : List ExtensionId × List ExtensionId} {ext : ExtensionId}
    {x : String} :
    x ∈ ids (enableStep de ext).2 ↔ x ∈ ids de.2 ∨ x = ext.id := by
  unfold enableStep
  by_cases h : de.2.any (fun item => item.id == ext.id) = true
  · have hm : ext.id ∈ ids de.2 := any_id_iff.mp h
    rw [if_pos h]
    constructor
    · exact Or.inl
    · rintro (hx | rfl)
      · exact hx
      · exact hm
  · rw [if_neg h, ids_push, List.mem_append, List.mem_singleton]

lemma enableStep_fst_mem {de : List ExtensionId × List ExtensionId} {ext : ExtensionId}
    (h : (ids de.1).Nodup) {x : String} :
    x ∈ ids (enableStep de ext).1 ↔ x ∈ ids de.1 ∧ x ≠ ext.id := by
  unfold enableStep
  exact mem_ids_eraseP h

lemma invList_enableStep {de : List ExtensionId × List ExtensionId} {ext : ExtensionId}
    (h : InvList de.1 de.2) : InvList (enableStep de ext).1 (enableStep de ext).2 := by
  obtain ⟨nd, ne, dis⟩ := h
  refine ⟨?_, ?_, ?_⟩
  · exact nodup_ids_eraseP nd _
  · show (ids (if de.2.any (fun item => item.id == ext.id) then de.2 else de.2 ++ [ext])).Nodup
    by_cases hc : de.2.any (fun item => item.id == ext.id) = true
    · rw [if_pos hc]; exact ne
    · have hm : ext.id ∉ ids de.2 := fun hmem => hc (any_id_iff.mpr hmem)
      rw [if_neg hc, ids_push]
      exact List.Nodup.append ne (List.nodup_singleton _)
        (by intro a ha hb; simp at hb; subst hb; exact hm ha)
  · intro x hx
    rw [enableStep_fst_mem nd] at hx
    obtain ⟨hx1, hne⟩ := hx
    rw [enableStep_snd_mem]
    rintro (hx2 | rfl)
    · exact dis x hx1 hx2
    · exact hne rfl

lemma uninstallStep_fst_mem {de : List ExtensionId × List ExtensionId} {ext : ExtensionId}
    (h : InvList de.1 de.2) {x : String} :
    x ∈ ids (uninstallStep de ext).1 ↔ x ∈ ids de.1 ∧ x ≠ ext.id := by
  obtain ⟨nd, ne, dis⟩ := h
  unfold uninstallStep
  by_cases hc : de.1.any (fun item => item.id == ext.id) = true
  · rw [if_pos hc]
    exact mem_ids_eraseP nd
  · have hm : ext.id ∉ ids de.1 := fun hmem => hc (any_id_iff.mpr hmem)
    rw [if_neg hc]
    constructor
    · intro hx; exact ⟨hx, by rintro rfl; exact hm hx⟩
    · exact And.left

lemma uninstallStep_snd_mem {de : List ExtensionId × List ExtensionId} {ext : ExtensionId}
    (h : InvList de.1 de.2) {x : String} :
    x ∈ ids (uninstallStep de ext).2 ↔ x ∈ ids de.2 ∧ x ≠ ext.id := by
  obtain ⟨nd, ne, dis⟩ := h
  unfold uninstallStep
  by_cases hc : de.1.any (fun item => item.id == ext.id) = true
  · have hm : ext.id ∈ ids de.1 := any_id_iff.mp hc
    rw [if_pos hc]
    constructor
    · intro hx; exact ⟨hx, by rintro rfl; exact dis _ hm hx⟩
    · exact And.left
  · rw [if_neg hc]
    exact mem_ids_eraseP ne

lemma invList_uninstallStep {de : List ExtensionId × List ExtensionId} {ext : ExtensionId}
    (h : InvList de.1 de.2) : InvList (uninstallStep de ext).1 (uninstallStep de ext).2 := by
  have hf := fun x => @uninstallStep_fst_mem de ext h x
  have hs := fun x => @uninstallStep_snd_mem de ext h x
  obtain ⟨nd, ne, dis⟩ := h
  refine ⟨?_, ?_, ?_⟩
  · unfold uninstallStep
    by_cases hc : de.1.any (fun item => item.id == ext.id) = true
    · rw [if_pos hc]; exact nodup_ids_eraseP nd _
    · rw [if_neg hc]; exact nd
  · unfold uninstallStep
    by_cases hc : de.1.any (fun item => item.id == ext.id) = true
    · rw [if_pos hc]; exact ne
    · rw [if_neg hc]; exact nodup_ids_eraseP ne _
  · intro x hx
    rw [hs x]
    rw [hf x] at hx
    rintro ⟨hx2, -⟩
    exact dis x hx.1 hx2

lemma mem_ids_cons {a : ExtensionId} {t : List ExtensionId} {x : String} :
    x ∈ ids (a :: t) ↔ x = a.id ∨ x ∈ ids t := by
  simp [ids]

lemma invList_disPass {l : List ExtensionId} {de : List ExtensionId × List ExtensionId}
    (h : InvList de.1 de.2) : InvList (l.foldl disableStep de).1 (l.foldl disableStep de).2 := by
  induction l generalizing de with
  | nil => exact h
  | cons a t ih => exact ih (invList_disableStep h)

lemma invList_enPass {l : List ExtensionId} {de : List ExtensionId × List ExtensionId}
    (h : InvList de.1 de.2) : InvList (l.foldl enableStep de).1 (l.foldl enableStep de).2 := by
  induction l generalizing de with
  | nil => exact h
  | cons a t ih => exact ih (invList_enableStep h)

lemma invList_unPass {l : List ExtensionId} {de : List ExtensionId × List ExtensionId}
    (h : InvList de.1 de.2) : InvList (l.foldl uninstallStep de).1 (l.foldl uninstallStep de).2 := by
  induction l generalizing de with
  | nil => exact h
  | cons a t ih => exact ih (invList_uninstallStep h)

lemma disPass_fst_mem {l : List ExtensionId} {de : List ExtensionId × List ExtensionId}
    (h : InvList de.1 de.2) {x : String} :
    x ∈ ids (l.foldl disableStep de).1 ↔ x ∈ ids de.1 ∨ x ∈ ids l := by
  induction l generalizing de with
  | nil => simp [ids]
  | cons a t ih =>
    rw [List.foldl_cons, ih (invList_disableStep h), disableStep_fst_mem, mem_ids_cons]
    tauto

lemma disPass_snd_mem {l : List ExtensionId} {de : List ExtensionId × List ExtensionId}
    (h : InvList de.1 de.2) {x : String} :
    x ∈ ids (l.foldl disableStep de).2 ↔ x ∈ ids de.2 ∧ x ∉ ids l := by
  induction l generalizing de with
  | nil => simp [ids]
  | cons a t ih =>
    rw [List.foldl_cons, ih (invList_disableStep h), disableStep_snd_mem h.2.1, mem_ids_cons]
    tauto

lemma enPass_fst_mem {l : List ExtensionId} {de : List ExtensionId × List ExtensionId}
    (h : InvList de.1 de.2) {x : String} :
    x ∈ ids (l.foldl enableStep de).1 ↔ x ∈ ids de.1 ∧ x ∉ ids l := by
  induction l generalizing de with
  | nil => simp [ids]
  | cons a t ih =>
    rw [List.foldl_cons, ih (invList_enableStep h), enableStep_fst_mem h.1, mem_ids_cons]
    tauto

lemma enPass_snd_mem {l : List ExtensionId} {de : List ExtensionId × List ExtensionId}
    (h : InvList de.1 de.2) {x : String} :
    x ∈ ids (l.foldl enableStep de).2 ↔ x ∈ ids de.2 ∨ x ∈ ids l := by
  induction l generalizing de with
  | nil => simp [ids]
  | cons a t ih =>
    rw [List.foldl_cons, ih (invList_enableStep h), enableStep_snd_mem, mem_ids_cons]
    tauto

lemma unPass_fst_mem {l : List ExtensionId} {de : List ExtensionId × List ExtensionId}
    (h : InvList de.1 de.2) {x : String} :
    x ∈ ids (l.foldl uninstallStep de).1 ↔ x ∈ ids de.1 ∧ x ∉ ids l := by
  induction l generalizing de with
  | nil => simp [ids]
  | cons a t ih =>
    rw [List.foldl_cons, ih (invList_uninstallStep h), uninstallStep_fst_mem h, mem_ids_cons]
    tauto

lemma unPass_snd_mem {l : List ExtensionId} {de : List ExtensionId × List ExtensionId}
    (h : InvList de.1 de.2) {x : String} :
    x ∈ ids (l.foldl uninstallStep de).2 ↔ x ∈ ids de.2 ∧ x ∉ ids l := by
  induction l generalizing de with
  | nil => simp [ids]
  | cons a t ih =>
    rw [List.foldl_cons, ih (invList_uninstallStep h), uninstallStep_snd_mem h, mem_ids_cons]
    tauto

lemma applyDiff_inv {B D : ExtensionList} (h : InvList B.disabled B.enabled) :
    InvList (applyExtensionsDiff B D).disabled (applyExtensionsDiff B D).enabled := by
  unfold applyExtensionsDiff
  exact invList_unPass (invList_enPass (invList_disPass h))

lemma applyDiff_disabled_mem {B D : ExtensionList} (h : InvList B.disabled B.enabled)
    {x : String} :
    x ∈ ids (applyExtensionsDiff B D).disabled ↔
      (x ∈ ids B.disabled ∨ x ∈ ids D.disabled) ∧ x ∉ ids D.enabled
        ∧ x ∉ ids (D.uninstall.getD []) := by
  unfold applyExtensionsDiff
  rw [unPass_fst_mem (invList_enPass (invList_disPass h)),
    enPass_fst_mem (invList_disPass h), disPass_fst_mem h]
  tauto

lemma applyDiff_enabled_mem {B D : ExtensionList} (h : InvList B.disabled B.enabled)
    {x : String} :
    x ∈ ids (applyExtensionsDiff B D).enabled ↔
      ((x ∈ ids B.enabled ∧ x ∉ ids D.disabled) ∨ x ∈ ids D.enabled)
        ∧ x ∉ ids (D.uninstall.getD []) := by
  unfold applyExtensionsDiff
  rw [unPass_snd_mem (invList_enPass (invList_disPass h)),
    enPass_snd_mem (invList_disPass h), disPass_snd_mem h]

lemma mem_arrayDiff {a b : List String} {x : String} :
    x ∈ arrayDiff a b ↔ x ∈ a ∧ x ∉ b := by
  simp [arrayDiff, List.mem_filter]

lemma idsMap_eq_some_of_mem {l : List ExtensionId} {x : String} (h : x ∈ ids l) :
    ∃ e, idsMap l x = some e ∧ e.id = x := by
  unfold idsMap
  obtain ⟨e, he, heq⟩ := by simpa [ids, List.mem_map] using h
  have hsome : (l.reverse.find? (fun e => e.id == x)).isSome := by
    rw [List.find?_isSome]
    exact ⟨e, by simpa using he, by simp [heq]⟩
  obtain ⟨r, hr⟩ := Option.isSome_iff_exists.mp hsome
  exact ⟨r, hr, by simpa using List.find?_some hr⟩

lemma ids_filterMap_idsMap {allE : List ExtensionId} {xs : List String}
    (h : ∀ x ∈ xs, x ∈ ids allE) : ids (xs.filterMap (idsMap allE)) = xs := by
  induction xs with
  | nil => rfl
  | cons a t ih =>
    obtain ⟨e, he, hid⟩ := idsMap_eq_some_of_mem (h a (by simp))
    rw [List.filterMap_cons_some he]
    show e.id :: ids (t.filterMap (idsMap allE)) = a :: t
    rw [hid, ih (fun x hx => h x (List.mem_cons_of_mem _ hx))]

lemma computeDiff_disabled_ids {editor profile : ExtensionList} :
    ids (computeExtensionsDiff editor profile).disabled
      = arrayDiff (ids editor.disabled) (ids profile.disabled) := by
  unfold computeExtensionsDiff
  refine ids_filterMap_idsMap (fun x hx => ?_)
  rw [ids_append, ids_append, ids_append]
  have := (mem_arrayDiff.mp hx).1
  simp only [List.mem_append]
  tauto

lemma computeDiff_enabled_ids {editor profile : ExtensionList} :
    ids (computeExtensionsDiff editor profile).enabled
      = arrayDiff (ids editor.enabled) (ids profile.enabled) := by
  unfold computeExtensionsDiff
  refine ids_filterMap_idsMap (fun x hx => ?_)
  rw [ids_append, ids_append, ids_append]
  have := (mem_arrayDiff.mp hx).1
  simp only [List.mem_append]
  tauto

lemma computeDiff_uninstall_mem {editor profile : ExtensionList} {x : String} :
    x ∈ ids ((computeExtensionsDiff editor profile).uninstall.getD []) ↔
      x ∈ arrayDiff (ids (profile.disabled ++ profile.enabled))
        (ids (editor.disabled ++ editor.enabled)) := by
  have hids : ids ((arrayDiff (ids (profile.disabled ++ profile.enabled))
      (ids (editor.disabled ++ editor.enabled))).filterMap
        (idsMap (profile.disabled ++ profile.enabled ++ editor.disabled ++ editor.enabled)))
      = arrayDiff (ids (profile.disabled ++ profile.enabled))
        (ids (editor.disabled ++ editor.enabled)) := by
    refine ids_filterMap_idsMap (fun x hx => ?_)
    have := (mem_arrayDiff.mp hx).1
    rw [ids_append] at this
    rw [ids_append, ids_append, ids_append]
    simp only [List.mem_append] at this ⊢
    tauto
  unfold computeExtensionsDiff
  simp only []
  split
  · next hE =>
    rw [List.isEmpty_iff] at hE
    have harr : arrayDiff (ids (profile.disabled ++ profile.enabled))
        (ids (editor.disabled ++ editor.enabled)) = [] := by
      rw [← hids, hE]; rfl
    rw [harr]
    simp [ids]
  · next hE =>
    rw [Option.getD_some, hids]

/-- C1 helper: id-set characterization of the serialize-time `uninstall`
ids as plain membership. -/
lemma computeDiff_uninstall_mem_explicit {editor profile : ExtensionList} {x : String} :
    x ∈ ids ((computeExtensionsDiff editor profile).uninstall.getD []) ↔
      (x ∈ ids profile.disabled ∨ x ∈ ids profile.enabled)
        ∧ ¬(x ∈ ids editor.disabled ∨ x ∈ ids editor.enabled) := by
  rw [computeDiff_uninstall_mem, mem_arrayDiff, ids_append, ids_append]
  simp only [List.mem_append]

lemma mem_ids_of_mem {ext : ExtensionId} {l : List ExtensionId} (h : ext ∈ l) :
    ext.id ∈ ids l :=
  List.mem_map_of_mem _ h

/-- C1 — Set-diff correctness: for stored baseline `L1` and live list `L2`,
both well-formed (no duplicate ids, disabled/enabled disjoint by id),
applying the serialize-time diff back onto `L1` reproduces exactly the
id-sets of `L2`, and the result is again well-formed. -/
theorem extensionsDiff_roundtrip (L1 L2 : ExtensionList)
    (h1 : InvList L1.disabled L1.enabled) (h2 : InvList L2.disabled L2.enabled) :
    (∀ x, x ∈ ids (applyExtensionsDiff L1 (computeExtensionsDiff L2 L1)).disabled
        ↔ x ∈ ids L2.disabled)
    ∧ (∀ x, x ∈ ids (applyExtensionsDiff L1 (computeExtensionsDiff L2 L1)).enabled
        ↔ x ∈ ids L2.enabled)
    ∧ InvList (applyExtensionsDiff L1 (computeExtensionsDiff L2 L1)).disabled
        (applyExtensionsDiff L1 (computeExtensionsDiff L2 L1)).enabled := by
  refine ⟨?_, ?_, applyDiff_inv h1⟩
  · intro x
    rw [applyDiff_disabled_mem h1]
    simp only [computeDiff_disabled_ids, computeDiff_enabled_ids,
      computeDiff_uninstall_mem_explicit, mem_arrayDiff]
    have hd1 := h1.2.2 x
    have hd2 := h2.2.2 x
    tauto
  · intro x
    rw [applyDiff_enabled_mem h1]
    simp only [computeDiff_disabled_ids, computeDiff_enabled_ids,
      computeDiff_uninstall_mem_explicit, mem_arrayDiff]
    have hd1 := h1.2.2 x
    have hd2 := h2.2.2 x
    tauto

/-- Concrete baseline list used by the C1 witness. -/
def roundtripL1 : ExtensionList :=
  { disabled := [⟨"a.one", "u1"⟩], enabled := [⟨"b.two", "u2"⟩] }

/-- Concrete live list used by the C1 witness. -/
def roundtripL2 : ExtensionList :=
  { disabled := [⟨"b.two", "u2"⟩], enabled := [⟨"c.three", "u3"⟩] }

/-- C1 witness: the round-trip theorem applied at concrete lists. -/
theorem extensionsDiff_roundtrip_witness :
    ("b.two" ∈ ids (applyExtensionsDiff roundtripL1
        (computeExtensionsDiff roundtripL2 roundtripL1)).disabled
      ↔ "b.two" ∈ ids roundtripL2.disabled)
    ∧ InvList (applyExtensionsDiff roundtripL1
        (computeExtensionsDiff roundtripL2 roundtripL1)).disabled
        (applyExtensionsDiff roundtripL1 (computeExtensionsDiff roundtripL2 roundtripL1)).enabled := by
  have h1 : InvList roundtripL1.disabled roundtripL1.enabled := by
    refine ⟨?_, ?_, ?_⟩ <;> simp [roundtripL1, ids]
  have h2 : InvList roundtripL2.disabled roundtripL2.enabled := by
    refine ⟨?_, ?_, ?_⟩ <;> simp [roundtripL2, ids]
  have h := extensionsDiff_roundtrip roundtripL1 roundtripL2 h1 h2
  exact ⟨h.1 "b.two", h.2.2⟩

lemma disableStep_noop {de : List ExtensionId × List ExtensionId} {ext : ExtensionId}
    (h1 : ext.id ∈ ids de.1) (h2 : ext.id ∉ ids de.2) : disableStep de ext = de := by
  unfold disableStep
  rw [if_pos (any_id_iff.mpr h1)]
  rw [List.eraseP_of_forall_not (fun b hb => by
    simp only [beq_iff_eq]
    intro heq
    exact h2 (heq ▸ mem_ids_of_mem hb))]

lemma enableStep_noop {de : List ExtensionId × List ExtensionId} {ext : ExtensionId}
    (h1 : ext.id ∉ ids de.1) (h2 : ext.id ∈ ids de.2) : enableStep de ext = de := by
  unfold enableStep
  rw [if_pos (any_id_iff.mpr h2)]
  rw [List.eraseP_of_forall_not (fun b hb => by
    simp only [beq_iff_eq]
    intro heq
    exact h1 (heq ▸ mem_ids_of_mem hb))]

lemma uninstallStep_noop {de : List ExtensionId × List ExtensionId} {ext : ExtensionId}
    (h1 : ext.id ∉ ids de.1) (h2 : ext.id ∉ ids de.2) : uninstallStep de ext = de := by
  unfold uninstallStep
  rw [if_neg (fun hc => h1 (any_id_iff.mp hc))]
  rw [List.eraseP_of_forall_not (fun b hb => by
    simp only [beq_iff_eq]
    intro heq
    exact h2 (heq ▸ mem_ids_of_mem hb))]

lemma disPass_noop {l : List ExtensionId} {de : List ExtensionId × List ExtensionId}
    (h : ∀ ext ∈ l, ext.id ∈ ids de.1 ∧ ext.id ∉ ids de.2) :
    l.foldl disableStep de = de := by
  induction l with
  | nil => rfl
  | cons a t ih =>
    rw [List.foldl_cons,
      disableStep_noop (h a (List.mem_cons_self a t)).1 (h a (List.mem_cons_self a t)).2]
    exact ih (fun ext hext => h ext (List.mem_cons_of_mem _ hext))

lemma enPass_noop {l : List ExtensionId} {de : List ExtensionId × List ExtensionId}
    (h : ∀ ext ∈ l, ext.id ∉ ids de.1 ∧ ext.id ∈ ids de.2) :
    l.foldl enableStep de = de := by
  induction l with
  | nil => rfl
  | cons a t ih =>
    rw [List.foldl_cons,
      enableStep_noop (h a (List.mem_cons_self a t)).1 (h a (List.mem_cons_self a t)).2]
    exact ih (fun ext hext => h ext (List.mem_cons_of_mem _ hext))

lemma unPass_noop {l : List ExtensionId} {de : List ExtensionId × List ExtensionId}
    (h : ∀ ext ∈ l, ext.id ∉ ids de.1 ∧ ext.id ∉ ids de.2) :
    l.foldl uninstallStep de = de := by
  induction l with
  | nil => rfl
  | cons a t ih =>
    rw [List.foldl_cons,
      uninstallStep_noop (h a (List.mem_cons_self a t)).1 (h a (List.mem_cons_self a t)).2]
    exact ih (fun ext hext => h ext (List.mem_cons_of_mem _ hext))

lemma applyDiff_uninstall_none (B D : ExtensionList) :
    (applyExtensionsDiff B D).uninstall = none := rfl

/-- C9 amended — idempotence of `applyExtensionsDiff` holds for every
well-formed base (no duplicate ids in `disabled`/`enabled`, the two
disjoint by id) and every diff whose `disabled`, `enabled` and
`uninstall` id lists are pairwise disjoint; it fails for arbitrary
lists (see the counterexample). -/
theorem applyExtensionsDiff_idempotent (B D : ExtensionList)
    (hB : InvList B.disabled B.enabled)
    (hde : ∀ x, x ∈ ids D.disabled → x ∉ ids D.enabled)
    (hdu : ∀ x, x ∈ ids D.disabled → x ∉ ids (D.uninstall.getD []))
    (heu : ∀ x, x ∈ ids D.enabled → x ∉ ids (D.uninstall.getD [])) :
    applyExtensionsDiff (applyExtensionsDiff B D) D = applyExtensionsDiff B D := by
  have hRd := fun x => @applyDiff_disabled_mem B D hB x
  have hRe := fun x => @applyDiff_enabled_mem B D hB x
  have h1 : D.disabled.foldl disableStep
      ((applyExtensionsDiff B D).disabled, (applyExtensionsDiff B D).enabled)
      = ((applyExtensionsDiff B D).disabled, (applyExtensionsDiff B D).enabled) := by
    refine disPass_noop (fun ext hext => ⟨?_, ?_⟩)
    · exact (hRd ext.id).mpr ⟨Or.inr (mem_ids_of_mem hext),
        hde ext.id (mem_ids_of_mem hext), hdu ext.id (mem_ids_of_mem hext)⟩
    · intro hmem
      rcases (hRe ext.id).mp hmem with ⟨⟨-, hnd⟩ | hDe, -⟩
      · exact hnd (mem_ids_of_mem hext)
      · exact hde ext.id (mem_ids_of_mem hext) hDe
  have h2 : D.enabled.foldl enableStep
      ((applyExtensionsDiff B D).disabled, (applyExtensionsDiff B D).enabled)
      = ((applyExtensionsDiff B D).disabled, (applyExtensionsDiff B D).enabled) := by
    refine enPass_noop (fun ext hext => ⟨?_, ?_⟩)
    · intro hmem
      exact ((hRd ext.id).mp hmem).2.1 (mem_ids_of_mem hext)
    · exact (hRe ext.id).mpr ⟨Or.inr (mem_ids_of_mem hext), heu ext.id (mem_ids_of_mem hext)⟩
  have h3 : (D.uninstall.getD []).foldl uninstallStep
      ((applyExtensionsDiff B D).disabled, (applyExtensionsDiff B D).enabled)
      = ((applyExtensionsDiff B D).disabled, (applyExtensionsDiff B D).enabled) := by
    refine unPass_noop (fun ext hext => ⟨?_, ?_⟩)
    · intro hmem
      exact ((hRd ext.id).mp hmem).2.2 (mem_ids_of_mem hext)
    · intro hmem
      exact ((hRe ext.id).mp hmem).2 (mem_ids_of_mem hext)
  conv_lhs => rw [applyExtensionsDiff]
  rw [h1, h2, h3]
  rw [← applyDiff_uninstall_none B D]

/-- C9 counterexample: idempotence of `applyExtensionsDiff` is false for
arbitrary inputs.  First input: a diff whose `disabled` and `enabled`
lists share an id changes the order of the result on a second
application.  Second input: a base whose `disabled` carries a duplicate
id loses an entry only on the second application. -/
theorem applyExtensionsDiff_not_idempotent :
    (applyExtensionsDiff
        (applyExtensionsDiff { disabled := [], enabled := [] }
          { disabled := [⟨"a.one", "u"⟩], enabled := [⟨"a.one", "u"⟩, ⟨"b.two", "v"⟩] })
        { disabled := [⟨"a.one", "u"⟩], enabled := [⟨"a.one", "u"⟩, ⟨"b.two", "v"⟩] }
      ≠ applyExtensionsDiff { disabled := [], enabled := [] }
          { disabled := [⟨"a.one", "u"⟩], enabled := [⟨"a.one", "u"⟩, ⟨"b.two", "v"⟩] })
    ∧ (applyExtensionsDiff
        (applyExtensionsDiff { disabled := [⟨"a.one", "u"⟩, ⟨"a.one", "u"⟩], enabled := [] }
          { disabled := [], enabled := [⟨"a.one", "u"⟩] })
        { disabled := [], enabled := [⟨"a.one", "u"⟩] }
      ≠ applyExtensionsDiff { disabled := [⟨"a.one", "u"⟩, ⟨"a.one", "u"⟩], enabled := [] }
          { disabled := [], enabled := [⟨"a.one", "u"⟩] }) := by
  constructor <;> decide

/-- C9 witness: the amended idempotence theorem applied at a concrete
well-formed base and pairwise-disjoint diff. -/
theorem applyExtensionsDiff_idempotent_witness :
    applyExtensionsDiff
        (applyExtensionsDiff { disabled := [⟨"a.one", "u"⟩], enabled := [⟨"b.two", "v"⟩] }
          { disabled := [⟨"c.three", "w"⟩], enabled := [],
            uninstall := some [⟨"b.two", "v"⟩] })
        { disabled := [⟨"c.three", "w"⟩], enabled := [], uninstall := some [⟨"b.two", "v"⟩] }
      = applyExtensionsDiff { disabled := [⟨"a.one", "u"⟩], enabled := [⟨"b.two", "v"⟩] }
          { disabled := [⟨"c.three", "w"⟩], enabled := [],
            uninstall := some [⟨"b.two", "v"⟩] } := by
  refine applyExtensionsDiff_idempotent _ _ ⟨?_, ?_, ?_⟩ ?_ ?_ ?_ <;> simp [ids, InvList]

/-! ## Values, documents, paths and the environment

JavaScript values are modelled with an explicit object reference so that
the strict (`===`/`!==`) and deep (`fast-equals` `deepEqual`) comparisons
can be distinguished: strict equality compares primitives by value and
objects by reference, deep equality compares object contents. -/

/-- A JavaScript runtime value as it flows through the UI-state engine:
primitives, or an object carrying its heap reference and its fields. -/
inductive JVal where
  | jstr (s : String)
  | jnum (n : Int)
  | jbool (b : Bool)
  | jnull
  | jobj (ref : Nat) (fields : List (String × String))
deriving DecidableEq, Repr

/-- JavaScript strict equality `===`: primitives by value, objects by
reference. -/
def jsStrictEq : JVal → JVal → Bool
  | .jstr a, .jstr b => a == b
  | .jnum a, .jnum b => a == b
  | .jbool a, .jbool b => a == b
  | .jnull, .jnull => true
  | .jobj r1 _, .jobj r2 _ => r1 == r2
  | _, _ => false

/-- `deepEqual` from the `fast-equals` package (an external collaborator):
structural value equality, ignoring object identity. -/
def jsDeepEq : JVal → JVal → Bool
  | .jobj _ f1, .jobj _ f2 => f1 == f2
  | a, b => jsStrictEq a b

/-- `value !== record[key]` against an optional lookup: a missing key
(`undefined`) is never strictly equal to a present value. -/
def jsStrictEqOpt (v : JVal) : Option JVal → Bool
  | some w => jsStrictEq v w
  | none => false

/-- JavaScript object assignment `m[k] = v`: replaces in place when the
key exists, appends otherwise (insertion order preserved). -/
def setKey (m : List (String × α)) (k : String) (v : α) : List (String × α) :=
  if m.any (fun kv => kv.1 == k) then
    m.map (fun kv => if kv.1 == k then (k, v) else kv)
  else m ++ [(k, v)]

/-- JavaScript `delete m[k]`. -/
def delKey (m : List (String × α)) (k : String) : List (String × α) :=
  m.filter (fun kv => kv.1 != k)

/-- JavaScript property read `m[k]` (`none` = `undefined`). -/
def lookupKey (m : List (String × α)) (k : String) : Option α :=
  (m.find? (fun kv => kv.1 == k)).map (·.2)

/-- JavaScript `String.prototype.includes`: substring containment. -/
def strContainsSub (s pat : String) : Bool :=
  (List.range (s.length + 1)).any
    (fun i => (s.toList.drop i).take pat.toList.length == pat.toList)

/-- `ProfileSettings` (`profile.yml`): the optional `extends` link
(named `extendsProfile` because `extends` is reserved in Lean). -/
structure ProfileSettings where
  extendsProfile : Option String := none
deriving DecidableEq, Repr, Inhabited

/-- `Resource` enum from `src/repository.ts`. -/
inductive Resource where
  | extensions
  | keybindings
  | settings
  | snippets
  | uiState
deriving DecidableEq, Repr

/-- `ProfileSyncSettings` (`.sync.yml` / legacy `config.yml`): every field
optional, unset fields inherit. -/
structure ProfileSyncSettings where
  keybindingsPerPlatform : Option Bool := none
  ignoredExtensions : Option (List String) := none
  ignoredSettings : Option (List String) := none
  resources : Option (List Resource) := none
deriving DecidableEq, Repr, Inhabited

/-- `UIStateDiff` (`ui-state.diff.yml`). -/
structure UIStateDiff where
  modified : List (String × JVal) := []
  removed : List String := []
deriving DecidableEq, Repr, Inhabited

/-- One stored extension list of an `extensions.yml` document, before
decoding: either the legacy shape (plain strings) or id/uuid records.
The source decides between the two by `length > 0 && typeof l[0] ===
'string'`; an empty array decodes to the empty list either way, so the
homogeneous tagged variant is an exact model of the documents this
engine reads and writes. -/
inductive RawList where
  | strs (l : List String)
  | recs (l : List ExtensionId)
deriving DecidableEq, Repr

/-- A stored `extensions.yml` document before decoding. -/
structure ExtRawDoc where
  disabled : RawList
  enabled : RawList
  uninstall : Option RawList := none
deriving DecidableEq, Repr

/-- Decoding of one stored list in `listProfileExtensions`: legacy
strings become records with the nil uuid, records pass through. -/
def decodeRawList : RawList → List ExtensionId
  | .strs l => l.map (fun id => (⟨id, NIL_UUID⟩ : ExtensionId))
  | .recs l => l

/-- The `uninstall` decode of `listProfileExtensions`, line 441 of the
source: when the stored `uninstall` list is a non-empty string array the
source maps `raw.disabled` — not `raw.uninstall` — into records.  When
`raw.disabled` holds records, the JavaScript expression would build
records whose `id` field is an object, which is not representable as a
string id; that unreachable-garbage corner is modelled as an error. -/
def decodeUninstall (rawDisabled : RawList) : Option RawList → Except String (Option (List ExtensionId))
  | none => .ok none
  | some (.strs []) => .ok (some [])
  | some (.strs (_ :: _)) =>
    match rawDisabled with
    | .strs ds => .ok (some (ds.map (fun id => (⟨id, NIL_UUID⟩ : ExtensionId))))
    | .recs _ => .error "ill-typed decode: id field would be an object"
  | some (.recs l) => .ok (some l)

/-- `process.platform` as seen by `getProfileKeybindingsPath`. -/
inductive Platform where
  | darwin
  | linux
  | win32
  | other
deriving DecidableEq, Repr

/-! ## The environment

One record holds everything the engine reads from outside itself: the
stored profile tree (parsed documents keyed by profile name), the live
editor state, the external key-value store, the success oracles of the
host commands, and the out-of-scope text transforms
(`preprocessJSONC`, `extractProperties`, `insertProperties`, SHA-1). -/

structure Env where
  rootPath : String := ""
  userDataPath : String := "userdata"
  profile : String := "main"
  profileSettings : String → Option ProfileSettings := fun _ => none
  syncNew : String → Option ProfileSyncSettings := fun _ => none
  syncOld : String → Option ProfileSyncSettings := fun _ => none
  extDoc : String → Option ExtRawDoc := fun _ => none
  extDocOld : String → Option ExtRawDoc := fun _ => none
  snippetsDiffFile : String → Option (List (String × List String)) := fun _ => none
  uiStateFile : String → Option (List (String × JVal)) := fun _ => none
  uiStateDiffFile : String → Option UIStateDiff := fun _ => none
  snippetFiles : String → List (String × String) := fun _ => []
  sha1 : String → String := fun s => s
  listEditorExtensions : List String → ExtensionList := fun _ => { disabled := [], enabled := [] }
  canManage : Bool := true
  stateDbRows : List String → Option (List (String × JVal)) := fun _ => none
  extDataPath : String := "/extdata"
  homeDir : String := "/home/user"
  confirmRestart : Bool := true
  installOk : String → Bool := fun _ => true
  enableOk : String → Bool := fun _ => true
  disableOk : String → Bool := fun _ => true
  uninstallOk : String → Bool := fun _ => true
  editorSnippets : List (String × String) := []
  keybindingsFiles : String → Option String := fun _ => none
  editorKeybindings : Option String := none
  editorSettings : Option String := none
  userSettingsFiles : String → Option String := fun _ => none
  preprocessJSONC : String → String := fun s => s
  extractProperties : String → List String → String := fun _ _ => ""
  insertProperties : String → String → String := fun s _ => s
  platform : Platform := .linux

/-- `getProfileDataPath`. -/
def getProfileDataPath (env : Env) (profile : String) : String :=
  env.rootPath ++ "/profiles/" ++ profile ++ "/data"

/-- `getProfileKeybindingsPath`: platform-specific file name when
`keybindingsPerPlatform` holds. -/
def getProfileKeybindingsPath (env : Env) (profile : String)
    (keybindingsPerPlatform : Bool) (suffix : String) : String :=
  let dataPath := getProfileDataPath env profile
  if keybindingsPerPlatform then
    match env.platform with
    | .darwin => dataPath ++ "/keybindings-macos" ++ suffix ++ ".json"
    | .linux => dataPath ++ "/keybindings-linux" ++ suffix ++ ".json"
    | .win32 => dataPath ++ "/keybindings-windows" ++ suffix ++ ".json"
    | .other => dataPath ++ "/keybindings" ++ suffix ++ ".json"
  else dataPath ++ "/keybindings" ++ suffix ++ ".json"

/-- `getEditorKeybindingsPath`. -/
def getEditorKeybindingsPath (env : Env) : String :=
  env.userDataPath ++ "/keybindings.json"

/-- `getProfileSnippetsPath`. -/
def getProfileSnippetsPath (env : Env) (profile : String) : String :=
  getProfileDataPath env profile ++ "/snippets"

/-- `getEditorSnippetsPath`. -/
def getEditorSnippetsPath (env : Env) : String :=
  env.userDataPath ++ "/snippets"

/-- `getDiffSnippetsPath`. -/
def getDiffSnippetsPath (env : Env) (profile : String) : String :=
  env.rootPath ++ "/profiles/" ++ profile ++ "/data/snippets.diff.yml"

/-- `getDiffUIStatePath`. -/
def getDiffUIStatePath (env : Env) (profile : String) : String :=
  env.rootPath ++ "/profiles/" ++ profile ++ "/data/ui-state.diff.yml"

/-- `getProfileUIStatePath`. -/
def getProfileUIStatePath (env : Env) (profile : String) : String :=
  env.rootPath ++ "/profiles/" ++ profile ++ "/data/ui-state.yml"

/-- `getProfileSyncSettingsPath`. -/
def getProfileSyncSettingsPath (env : Env) (profile : String) : String :=
  env.rootPath ++ "/profiles/" ++ profile ++ "/.sync.yml"

/-- `getProfileSyncSettingsOldPath`. -/
def getProfileSyncSettingsOldPath (env : Env) (profile : String) : String :=
  env.rootPath ++ "/profiles/" ++ profile ++ "/config.yml"

/-! ## The trace monad

Every engine operation is embedded as a value of `TraceM α`: the result
(or the message of the JavaScript exception it would throw, including a
distinguished "out of fuel" message for a non-terminating `extends`
chain), together with the ordered list of external events it performs.
Queries and the confirmation prompt never change the live environment;
`mutate` events are the install/enable/disable/uninstall commands, file
writes/deletes/copies and key-value store writes. -/

/-- One mutation of the live environment. -/
inductive Mutation where
  | installExt (id : String)
  | enableExt (id : String)
  | disableExt (id : String)
  | uninstallExt (id : String)
  | writeFile (path : String)
  | removeFile (path : String)
  | emptyDir (path : String)
  | copyFile (src dst : String)
  | writeStateDB (statement : String)
  | restartApp
  | reloadWindow
deriving DecidableEq, Repr

inductive Event where
  | query (s : String)
  | prompt (s : String)
  | mutate (m : Mutation)
deriving DecidableEq, Repr

/-- Whether an event changes the live environment. -/
def Event.isMutation : Event → Bool
  | .mutate _ => true
  | _ => false

structure TraceM (α : Type) where
  res : Except String α
  trace : List Event
deriving Repr

/-- Lift a pure value. -/
def tpure (a : α) : TraceM α := ⟨.ok a, []⟩

/-- Sequencing: on error the continuation never runs and contributes no
events. -/
def tbind (x : TraceM α) (f : α → TraceM β) : TraceM β :=
  match x.res with
  | .ok a => ⟨(f a).res, x.trace ++ (f a).trace⟩
  | .error e => ⟨.error e, x.trace⟩

/-- An external read. -/
def tquery (s : String) : TraceM Unit := ⟨.ok (), [.query s]⟩

/-- A user-facing modal prompt. -/
def tprompt (s : String) : TraceM Unit := ⟨.ok (), [.prompt s]⟩

/-- An external mutation. -/
def tmutate (m : Mutation) : TraceM Unit := ⟨.ok (), [.mutate m]⟩

/-- A thrown JavaScript error. -/
def tthrow (msg : String) : TraceM α := ⟨.error msg, []⟩

/-- Lift an `Except` computation (no events). -/
def tof (r : Except String α) : TraceM α := ⟨r, []⟩

/-- Effectful left fold (the `for ... of` loops). -/
def tfoldl (l : List α) (init : β) (f : β → α → TraceM β) : TraceM β :=
  match l with
  | [] => tpure init
  | a :: t => tbind (f init a) (fun b => tfoldl t b f)

/-- A trace that contains no mutation. -/
def QueryOnly (tr : List Event) : Prop := ∀ e ∈ tr, e.isMutation = false

lemma queryOnly_nil : QueryOnly [] := by intro e he; cases he

lemma queryOnly_append {t1 t2 : List Event} (h1 : QueryOnly t1) (h2 : QueryOnly t2) :
    QueryOnly (t1 ++ t2) := by
  intro e he
  rcases List.mem_append.mp he with h | h
  · exact h1 e h
  · exact h2 e h

lemma queryOnly_tbind {x : TraceM α} {f : α → TraceM β}
    (hx : QueryOnly x.trace) (hf : ∀ a, QueryOnly (f a).trace) :
    QueryOnly (tbind x f).trace := by
  unfold tbind
  cases hres : x.res with
  | ok a => exact queryOnly_append hx (hf a)
  | error e => exact hx

lemma queryOnly_tpure {a : α} : QueryOnly (tpure a).trace := queryOnly_nil

lemma queryOnly_tquery {s : String} : QueryOnly (tquery s).trace := by
  intro e he
  simp [tquery] at he
  subst he
  rfl

lemma queryOnly_tthrow {s : String} : QueryOnly (tthrow (α := α) s).trace := queryOnly_nil

lemma queryOnly_tof {r : Except String α} : QueryOnly (tof r).trace := queryOnly_nil

lemma tbind_trace_ok {x : TraceM α} {f : α → TraceM β} {a : α} (h : x.res = .ok a) :
    (tbind x f).trace = x.trace ++ (f a).trace := by
  unfold tbind
  rw [h]

lemma tbind_res_ok {x : TraceM α} {f : α → TraceM β} {a : α} (h : x.res = .ok a) :
    (tbind x f).res = (f a).res := by
  unfold tbind
  rw [h]

lemma tbind_trace_error {x : TraceM α} {f : α → TraceM β} {e : String}
    (h : x.res = .error e) : (tbind x f).trace = x.trace := by
  unfold tbind
  rw [h]

/-! ## Read layer (`FileRepository`, pure reads)

The recursive walks over the `extends` chain are embedded with a fuel
parameter; running out of fuel is a distinguished error (the source has
no cycle guard and would recurse forever, see spec §9). -/

/-- `loadProfileSettings`: parse `profile.yml`, or `{}` when absent. -/
def loadProfileSettingsT (env : Env) (profile : String) : TraceM ProfileSettings :=
  tbind (tquery ("read profile.yml of " ++ profile)) fun _ =>
  tpure ((env.profileSettings profile).getD {})

/-- `loadProfileSyncSettings`: the profile's own `.sync.yml`, else its
legacy `config.yml`, else the nearest ancestor's, else the fatal
error. -/
def loadProfileSyncSettingsT (fuel : Nat) (env : Env) (profile : String) :
    TraceM ProfileSyncSettings :=
  match fuel with
  | 0 => tthrow "out of fuel"
  | fuel + 1 =>
    tbind (tquery ("exists .sync.yml of " ++ profile)) fun _ =>
    match env.syncNew profile with
    | some d => tbind (tquery ("read .sync.yml of " ++ profile)) fun _ => tpure d
    | none =>
      tbind (tquery ("exists config.yml of " ++ profile)) fun _ =>
      match env.syncOld profile with
      | some d => tbind (tquery ("read config.yml of " ++ profile)) fun _ => tpure d
      | none =>
        tbind (loadProfileSettingsT env profile) fun settings =>
        match settings.extendsProfile with
        | some parent => loadProfileSyncSettingsT fuel env parent
        | none => tthrow "sync settings file of profile can not be found"

/-- `getAncestorProfile`: follow `extends` links to the root. -/
def getAncestorProfileT (fuel : Nat) (env : Env) (profile : String) : TraceM String :=
  match fuel with
  | 0 => tthrow "out of fuel"
  | fuel + 1 =>
    tbind (loadProfileSettingsT env profile) fun settings =>
    match settings.extendsProfile with
    | some parent => getAncestorProfileT fuel env parent
    | none => tpure profile

/-- The ordered `extends` chain starting at a profile (used to state the
C8 theorem); `none` when the fuel does not reach the root. -/
def profileChain (fuel : Nat) (env : Env) (profile : String) : Option (List String) :=
  match fuel with
  | 0 => none
  | fuel + 1 =>
    match ((env.profileSettings profile).getD {}).extendsProfile with
    | some parent => (profileChain fuel env parent).map (profile :: ·)
    | none => some [profile]

/-- `listProfileExtensions`: for a root profile, the decoded stored
document (current path, else legacy path, else empty); for an
inheriting profile, the decoded diff document applied onto the
recursively resolved ancestor list, or the ancestor list alone when no
document exists at either path. -/
def listProfileExtensionsT (fuel : Nat) (env : Env) (profile : String) :
    TraceM ExtensionList :=
  match fuel with
  | 0 => tthrow "out of fuel"
  | fuel + 1 =>
    tbind (loadProfileSettingsT env profile) fun settings =>
    match settings.extendsProfile with
    | none =>
      tbind (tquery ("exists extensions.yml of " ++ profile)) fun _ =>
      match env.extDoc profile with
      | some raw =>
        tbind (tquery "read extensions.yml") fun _ =>
        tpure { disabled := decodeRawList raw.disabled, enabled := decodeRawList raw.enabled }
      | none =>
        tbind (tquery ("exists legacy extensions.yml of " ++ profile)) fun _ =>
        match env.extDocOld profile with
        | some raw =>
          tbind (tquery "read legacy extensions.yml") fun _ =>
          tpure { disabled := decodeRawList raw.disabled, enabled := decodeRawList raw.enabled }
        | none => tpure { disabled := [], enabled := [] }
    | some parent =>
      tbind (tquery ("exists extensions.yml of " ++ profile)) fun _ =>
      match env.extDoc profile with
      | some raw =>
        tbind (tquery "read extensions.yml") fun _ =>
        tbind (tof (decodeUninstall raw.disabled raw.uninstall)) fun uninstall =>
        tbind (listProfileExtensionsT fuel env parent) fun ancestors =>
        tpure (applyExtensionsDiff ancestors
          { disabled := decodeRawList raw.disabled, enabled := decodeRawList raw.enabled,
            uninstall := uninstall })
      | none =>
        tbind (tquery ("exists legacy extensions.yml of " ++ profile)) fun _ =>
        match env.extDocOld profile with
        | some raw =>
          tbind (tquery "read legacy extensions.yml") fun _ =>
          tbind (tof (decodeUninstall raw.disabled raw.uninstall)) fun uninstall =>
          tbind (listProfileExtensionsT fuel env parent) fun ancestors =>
          tpure (applyExtensionsDiff ancestors
            { disabled := decodeRawList raw.disabled, enabled := decodeRawList raw.enabled,
              uninstall := uninstall })
        | none => listProfileExtensionsT fuel env parent

/-- The `delete snippets[name]` loop of `listProfileSnippetHashes` /
`listProfileSnippetPaths`: a name is deleted only when its current value
is truthy (a non-empty string). -/
def deleteTruthy (snippets : List (String × String)) (names : List String) :
    List (String × String) :=
  names.foldl (fun acc name =>
    match lookupKey acc name with
    | some h => if h = "" then acc else delKey acc name
    | none => acc) snippets

/-- The overlay loop shared by the two snippet listers: hash (or path)
every file physically present in the profile's own snippets directory
into the index. -/
def overlayFiles (env : Env) (profile : String) (value : String → String → String)
    (snippets : List (String × String)) : List (String × String) :=
  (env.snippetFiles profile).foldl (fun acc fc => setKey acc fc.1 (value fc.1 fc.2)) snippets

/-- `listProfileSnippetHashes`.  Note: the source parses the diff
document as `{ remove: string[] }` and iterates `diff.remove`, although
the documents this engine writes (`saveSnippetsDiff`) use the key
`removed`; iterating the resulting `undefined` throws a `TypeError`. -/
def listProfileSnippetHashesT (fuel : Nat) (env : Env) (profile : String) :
    TraceM (List (String × String)) :=
  match fuel with
  | 0 => tthrow "out of fuel"
  | fuel + 1 =>
    tbind (loadProfileSettingsT env profile) fun settings =>
    match settings.extendsProfile with
    | some parent =>
      tbind (listProfileSnippetHashesT fuel env parent) fun inherited =>
      tbind (tquery ("exists snippets.diff.yml of " ++ profile)) fun _ =>
      tbind (match env.snippetsDiffFile profile with
        | some doc =>
          tbind (tquery "read snippets.diff.yml") fun _ =>
          match lookupKey doc "remove" with
          | some names => tpure (deleteTruthy inherited names)
          | none => tthrow "TypeError: diff.remove is not iterable"
        | none => tpure inherited) fun snippets =>
      tbind (tquery "globby profile snippets") fun _ =>
      tpure (overlayFiles env profile (fun _ content => env.sha1 content) snippets)
    | none =>
      tbind (tquery "globby profile snippets") fun _ =>
      tpure (overlayFiles env profile (fun _ content => env.sha1 content) [])

/-- `listProfileSnippetPaths`: same chain walk, reading the correct
`removed` key and indexing file paths instead of hashes. -/
def listProfileSnippetPathsT (fuel : Nat) (env : Env) (profile : String) :
    TraceM (List (String × String)) :=
  match fuel with
  | 0 => tthrow "out of fuel"
  | fuel + 1 =>
    tbind (loadProfileSettingsT env profile) fun settings =>
    match settings.extendsProfile with
    | some parent =>
      tbind (listProfileSnippetPathsT fuel env parent) fun inherited =>
      tbind (tquery ("exists snippets.diff.yml of " ++ profile)) fun _ =>
      tbind (match env.snippetsDiffFile profile with
        | some doc =>
          tbind (tquery "read snippets.diff.yml") fun _ =>
          match lookupKey doc "removed" with
          | some names => tpure (deleteTruthy inherited names)
          | none => tthrow "TypeError: diff.removed is not iterable"
        | none => tpure inherited) fun snippets =>
      tbind (tquery "globby profile snippets") fun _ =>
      tpure (overlayFiles env profile
        (fun name _ => getProfileSnippetsPath env profile ++ "/" ++ name) snippets)
    | none =>
      tbind (tquery "globby profile snippets") fun _ =>
      tpure (overlayFiles env profile
        (fun name _ => getProfileSnippetsPath env profile ++ "/" ++ name) [])

/-- `loadUIStateDiff`. -/
def loadUIStateDiffT (env : Env) (profile : String) : TraceM (Option UIStateDiff) :=
  tbind (tquery ("exists ui-state.diff.yml of " ++ profile)) fun _ =>
  tpure (env.uiStateDiffFile profile)

/-- `loadSnippetsDiff` (always reads the current profile). -/
def loadSnippetsDiffT (env : Env) : TraceM (Option (List (String × List String))) :=
  tbind (tquery ("exists snippets.diff.yml of " ++ env.profile)) fun _ =>
  tpure (env.snippetsDiffFile env.profile)

/-- `listProfileUIStateProperties`: a root profile's stored snapshot, or
the ancestor's effective properties with the profile's own diff applied
(`modified` overwrites, then `removed` deletes). -/
def listProfileUIStatePropertiesT (fuel : Nat) (env : Env) (profile : String) :
    TraceM (List (String × JVal)) :=
  match fuel with
  | 0 => tthrow "out of fuel"
  | fuel + 1 =>
    tbind (loadProfileSettingsT env profile) fun settings =>
    match settings.extendsProfile with
    | none =>
      tbind (tquery ("exists ui-state.yml of " ++ profile)) fun _ =>
      match env.uiStateFile profile with
      | none => tpure []
      | some doc => tbind (tquery "read ui-state.yml") fun _ => tpure doc
    | some parent =>
      tbind (listProfileUIStatePropertiesT fuel env parent) fun properties =>
      tbind (loadUIStateDiffT env profile) fun diff =>
      match diff with
      | none => tpure properties
      | some d =>
        tpure (d.removed.foldl (fun acc key => delKey acc key)
          (d.modified.foldl (fun acc kv => setKey acc kv.1 kv.2) properties))

/-- The redaction loop of `listEditorUIStateProperties`: every string
value has the extension-data path replaced by the portable placeholder,
and any value still containing the home directory is dropped. -/
def redactRows (env : Env) (rows : List (String × JVal)) : List (String × JVal) :=
  rows.foldl (fun props kv =>
    match kv.2 with
    | .jstr s =>
      let s2 := s.replace env.extDataPath "%%EXTENSION_DATA_PATH%%"
      if strContainsSub s2 env.homeDir then props else setKey props kv.1 (.jstr s2)
    | v => setKey props kv.1 v) []

/-- `listEditorUIStateProperties`: key-value rows of the external store
restricted to the extension ids and the `workbench.%` namespace, then
redacted. -/
def listEditorUIStatePropsT (env : Env) (extensions : Option ExtensionList) :
    TraceM (List (String × JVal)) :=
  tbind (match extensions with
    | some e => tpure e
    | none => tbind (tquery "listEditorExtensions") fun _ =>
        tpure (env.listEditorExtensions [])) fun exts =>
  tbind (tquery "readStateDB ItemTable") fun _ =>
  match env.stateDbRows (ids exts.disabled ++ ids exts.enabled) with
  | none => tpure []
  | some rows =>
    tbind (tquery "getExtensionDataUri and homedir") fun _ =>
    tpure (redactRows env rows)

/-- `Repository.canManageExtensions`: whether the host exposes the
enable/disable commands. -/
def canManageExtensionsT (env : Env) : TraceM Bool :=
  tbind (tquery "getCommands") fun _ => tpure env.canManage

/-- The UI-state half of `shouldRestartApp`: some effective profile key
whose value strictly differs from the live value. -/
def shouldRestartUIStateDiffersT (fuel : Nat) (env : Env) (extensions : ExtensionList) :
    TraceM Bool :=
  tbind (listEditorUIStatePropsT env (some extensions)) fun editor =>
  tbind (listProfileUIStatePropertiesT fuel env env.profile) fun profile =>
  tpure (profile.any (fun kv => !(jsStrictEqOpt kv.2 (lookupKey editor kv.1))))

/-- `shouldRestartApp`: false when neither UI state nor extensions is a
selected resource; true when some target-disabled extension exists and
the host cannot manage extensions natively; true when some effective
UI-state value strictly differs from the live value. -/
def shouldRestartAppT (fuel : Nat) (env : Env) (resources : List Resource) : TraceM Bool :=
  if resources.contains Resource.uiState || resources.contains Resource.extensions then
    tbind (listProfileExtensionsT fuel env env.profile) fun extensions =>
    if extensions.disabled.length > 0 then
      tbind (canManageExtensionsT env) fun can =>
      if !can then tpure true
      else shouldRestartUIStateDiffersT fuel env extensions
    else shouldRestartUIStateDiffersT fuel env extensions
  else tpure false

/-! ## Restore layer (mutating) -/

/-- `installExtension` host command. -/
def installExtensionT (env : Env) (id : String) : TraceM Bool :=
  ⟨.ok (env.installOk id), [.mutate (.installExt id)]⟩

/-- `enableExtension` host command. -/
def enableExtensionT (env : Env) (id : String) : TraceM Bool :=
  ⟨.ok (env.enableOk id), [.mutate (.enableExt id)]⟩

/-- `disableExtension` host command. -/
def disableExtensionT (env : Env) (id : String) : TraceM Bool :=
  ⟨.ok (env.disableOk id), [.mutate (.disableExt id)]⟩

/-- `uninstallExtension` host command. -/
def uninstallExtensionT (env : Env) (id : String) : TraceM Bool :=
  ⟨.ok (env.uninstallOk id), [.mutate (.uninstallExt id)]⟩

/-- `writeStateDB`. -/
def writeStateDBT (s : String) : TraceM Unit := tmutate (.writeStateDB s)

/-- Truthiness of `installed[id]` (`undefined` is falsy). -/
def lookupB (m : List (String × Bool)) (k : String) : Bool :=
  (lookupKey m k).getD false

/-- `restoreExtensions`, native branch (the host exposes
enable/disable commands): reconcile the profile's effective list against
the live environment, accumulating per-item failures into one flag. -/
def restoreExtensionsNativeT (env : Env) (profileExts : ExtensionList)
    (currentlyDisabled currentlyEnabled : List String)
    (installed0 : List (String × Bool)) : TraceM (Bool × List (String × Bool)) :=
  tbind (tfoldl profileExts.disabled ((false : Bool), installed0) (fun st ext =>
    tbind (if !(lookupB st.2 ext.id) then
        tbind (installExtensionT env ext.id) fun ok1 =>
        if ok1 then disableExtensionT env ext.id else tpure false
      else if currentlyEnabled.contains ext.id then disableExtensionT env ext.id
      else tpure true) fun ok =>
    tpure (!ok || st.1, setKey st.2 ext.id false))) fun st1 =>
  tbind (tfoldl profileExts.enabled st1 (fun st ext =>
    tbind (if !(lookupB st.2 ext.id) then installExtensionT env ext.id
      else if currentlyDisabled.contains ext.id then enableExtensionT env ext.id
      else tpure true) fun ok =>
    tpure (!ok || st.1, setKey st.2 ext.id false))) fun st2 =>
  tbind (tfoldl st2.2 st2.1 (fun failures kv =>
    if kv.2 then
      tbind (uninstallExtensionT env kv.1) fun ok => tpure (!ok || failures)
    else tpure failures)) fun failures =>
  tpure (failures, st2.2)

/-- `restoreExtensions`, fallback branch (no native enable/disable):
disabling is simulated through the key-value store, and re-enabling an
installed-but-disabled extension needs uninstall + reinstall. -/
def restoreExtensionsFallbackT (env : Env) (profileExts : ExtensionList)
    (currentlyDisabled : List String)
    (installed0 : List (String × Bool)) : TraceM (Bool × List (String × Bool)) :=
  tbind (tfoldl profileExts.disabled ((false : Bool), installed0) (fun st ext =>
    tbind (if !(lookupB st.2 ext.id) then installExtensionT env ext.id
      else tpure true) fun ok =>
    tpure (!ok || st.1, setKey st.2 ext.id false))) fun st1 =>
  tbind (tfoldl profileExts.enabled st1 (fun st ext =>
    tbind (if !(lookupB st.2 ext.id) then installExtensionT env ext.id
      else if currentlyDisabled.contains ext.id then
        tbind (uninstallExtensionT env ext.id) fun ok1 =>
        if ok1 then installExtensionT env ext.id else tpure false
      else tpure true) fun ok =>
    tpure (!ok || st.1, setKey st.2 ext.id false))) fun st2 =>
  tbind (tfoldl st2.2 st2.1 (fun failures kv =>
    if kv.2 then
      tbind (uninstallExtensionT env kv.1) fun ok => tpure (!ok || failures)
    else tpure failures)) fun failures =>
  tbind (if profileExts.disabled.length > 0 then
      writeStateDBT "INSERT OR REPLACE extensionsIdentifiers/disabled"
    else tpure ()) fun _ =>
  tpure (failures, st2.2)

/-- `restoreExtensions`: returns the aggregate failures flag (which the
orchestrator uses as the reload-window decision). -/
def restoreExtensionsT (fuel : Nat) (env : Env) (syncSettings : ProfileSyncSettings) :
    TraceM Bool :=
  tbind (tquery "listEditorExtensions") fun _ =>
  let editor := env.listEditorExtensions (syncSettings.ignoredExtensions.getD [])
  let currentlyDisabled := ids editor.disabled
  let currentlyEnabled := ids editor.enabled
  let installed0 := (ids editor.disabled ++ ids editor.enabled).foldl
    (fun m id => setKey m id true) []
  tbind (listProfileExtensionsT fuel env env.profile) fun profileExts =>
  tbind (canManageExtensionsT env) fun canManage =>
  tbind (if canManage then
      restoreExtensionsNativeT env profileExts currentlyDisabled currentlyEnabled installed0
    else
      restoreExtensionsFallbackT env profileExts currentlyDisabled installed0) fun res =>
  tbind (match profileExts.uninstall with
    | some unis => tfoldl unis res.1 (fun failures ext =>
        if lookupB res.2 ext.id then
          tbind (uninstallExtensionT env ext.id) fun ok => tpure (!ok || failures)
        else tpure failures)
    | none => tpure res.1) fun failures =>
  tpure failures

/-- `getProfileKeybindings`: `undefined` when the profile's own
`keybindingsPerPlatform` differs from the requested one or the file for
the applicable platform path does not exist. -/
def getProfileKeybindingsT (fuel : Nat) (env : Env) (profile : String)
    (keybindingsPerPlatform : Bool) : TraceM (Option String) :=
  tbind (loadProfileSyncSettingsT fuel env profile) fun syncSettings =>
  let profilePerPlatform := syncSettings.keybindingsPerPlatform.getD true
  if profilePerPlatform != keybindingsPerPlatform then tpure none
  else
    tbind (tquery "exists profile keybindings file") fun _ =>
    match env.keybindingsFiles (getProfileKeybindingsPath env profile keybindingsPerPlatform "") with
    | some data => tbind (tquery "read profile keybindings file") fun _ => tpure (some data)
    | none => tpure none

/-- `restoreKeybindings`: the value returned is the (path, contents)
pair written to the live keybindings file. -/
def restoreKeybindingsT (fuel : Nat) (env : Env) (ancestorProfile : String) :
    TraceM (String × String) :=
  tbind (loadProfileSyncSettingsT fuel env ancestorProfile) fun syncSettings =>
  let dataPath := getEditorKeybindingsPath env
  let keybindingsPerPlatform := syncSettings.keybindingsPerPlatform.getD true
  tbind (getProfileKeybindingsT fuel env ancestorProfile keybindingsPerPlatform) fun data? =>
  let data := match data? with
    | some d => env.preprocessJSONC d
    | none => "[]"
  tbind (tmutate (.writeFile dataPath)) fun _ =>
  tpure (dataPath, data)

/-- `restoreUserSettings`: the value returned is the (path, contents)
pair written to the live settings file. -/
def restoreUserSettingsT (fuel : Nat) (env : Env) (ancestorProfile : String) :
    TraceM (String × String) :=
  let dataPath := env.userDataPath ++ "/settings.json"
  tbind (tquery "exists editor settings.json") fun _ =>
  tbind (match env.editorSettings with
    | some text =>
      tbind (loadProfileSyncSettingsT fuel env ancestorProfile) fun syncSettings =>
      tbind (tquery "read editor settings.json") fun _ =>
      tpure (env.extractProperties text (syncSettings.ignoredSettings.getD []))
    | none => tpure "") fun extracted =>
  tbind (tquery "exists profile settings.json") fun _ =>
  let data0 := match env.userSettingsFiles ancestorProfile with
    | some d => env.preprocessJSONC d
    | none => "{}"
  let data := if extracted.length > 0 then env.insertProperties data0 extracted else data0
  tbind (tmutate (.writeFile dataPath)) fun _ =>
  tpure (dataPath, data)

/-- `restoreSnippets`: empty the live snippets directory, then copy the
effective path index minus the current profile's removal list. -/
def restoreSnippetsT (fuel : Nat) (env : Env) : TraceM Unit :=
  tbind (tmutate (.emptyDir (getEditorSnippetsPath env))) fun _ =>
  tbind (loadSnippetsDiffT env) fun diff? =>
  tbind (match diff? with
    | some doc =>
      match lookupKey doc "removed" with
      | some names => tpure names
      | none => tthrow "TypeError: spread of undefined diff.removed"
    | none => tpure ([] : List String)) fun ignore =>
  tbind (listProfileSnippetPathsT fuel env env.profile) fun snippets =>
  tfoldl snippets () (fun _ kv =>
    if ignore.contains kv.1 then tpure ()
    else tbind (tmutate (.copyFile kv.2 (getEditorSnippetsPath env ++ "/" ++ kv.1))) fun _ => tpure ())

/-- `restoreUIState`: write every effective property (with the
placeholder substituted back) into the key-value store in one statement,
or nothing when there are no properties. -/
def restoreUIStateT (fuel : Nat) (env : Env) : TraceM Unit :=
  tbind (tquery "getExtensionDataUri") fun _ =>
  tbind (listProfileUIStatePropertiesT fuel env env.profile) fun profile =>
  let entries := profile.map (fun kv =>
    match kv.2 with
    | JVal.jstr s => (kv.1, JVal.jstr (s.replace "%%EXTENSION_DATA_PATH%%" env.extDataPath))
    | v => (kv.1, v))
  if entries.length > 0 then
    tbind (writeStateDBT "INSERT OR REPLACE INTO ItemTable") fun _ => tpure ()
  else tpure ()

/-- The declared default resource order of `restoreProfile` /
`serializeProfile`. -/
def defaultResources : List Resource :=
  [Resource.extensions, Resource.keybindings, Resource.settings,
    Resource.snippets, Resource.uiState]

/-- The per-resource loop of `restoreProfile` plus the final
restart/reload decision. -/
def restoreBodyT (fuel : Nat) (env : Env) (syncSettings : ProfileSyncSettings)
    (ancestorProfile : String) (resources : List Resource) (restart : Bool) : TraceM Unit :=
  tbind (tfoldl resources false (fun reloadWindow r =>
    match r with
    | Resource.extensions => restoreExtensionsT fuel env syncSettings
    | Resource.keybindings =>
      tbind (restoreKeybindingsT fuel env ancestorProfile) fun _ => tpure reloadWindow
    | Resource.settings =>
      tbind (restoreUserSettingsT fuel env ancestorProfile) fun _ => tpure reloadWindow
    | Resource.snippets =>
      tbind (restoreSnippetsT fuel env) fun _ => tpure reloadWindow
    | Resource.uiState =>
      tbind (restoreUIStateT fuel env) fun _ => tpure reloadWindow)) fun reloadWindow =>
  if restart then tbind (tmutate .restartApp) fun _ => tpure ()
  else if reloadWindow then tbind (tmutate .reloadWindow) fun _ => tpure ()
  else tpure ()

/-- `restoreProfile`: resolve the sync settings and the root ancestor,
evaluate `shouldRestartApp`, gate on the confirmation prompt when a
restart will be needed, then run the per-resource restore loop. -/
def restoreProfileT (fuel : Nat) (env : Env) : TraceM Unit :=
  tbind (loadProfileSyncSettingsT fuel env env.profile) fun syncSettings =>
  tbind (getAncestorProfileT fuel env env.profile) fun ancestorProfile =>
  let resources := syncSettings.resources.getD defaultResources
  tbind (shouldRestartAppT fuel env resources) fun restart =>
  if restart then
    tbind (tprompt "The editor will be restarted after applying the profile.") fun _ =>
    if env.confirmRestart then
      restoreBodyT fuel env syncSettings ancestorProfile resources restart
    else tpure ()
  else restoreBodyT fuel env syncSettings ancestorProfile resources restart

/-! ## Serialize layer

The serialize functions return, alongside their computed content, the
state of the profile's diff document after the call (so that persistence
of stale documents is expressible); the source writes the document only
on the branches that emit the corresponding `writeFile` event and never
deletes it, which the returned value mirrors. -/

/-- Modelled from the spec: the `isEmpty` helper
(`src/utils/is-empty.ts`, not included in the sources) — whether a
record has no keys, gating "the diff document is persisted only if at
least one of the two sets is non-empty". -/
def isEmptyRecord (m : List (String × JVal)) : Bool := m.isEmpty

/-- The document written by `saveSnippetsDiff`: a map with the single
key `removed`. -/
def saveSnippetsDiffDoc (removed : List String) : List (String × List String) :=
  [("removed", removed)]

/-- `saveUIStateDiff`: write the diff document only when it is
non-empty; the returned value is the `ui-state.diff.yml` content after
the call (unchanged when nothing is written — there is no delete in the
source). -/
def saveUIStateDiffT (env : Env) (diff : UIStateDiff) : TraceM (Option UIStateDiff) :=
  if diff.removed.length > 0 || !(isEmptyRecord diff.modified) then
    tbind (tmutate (.writeFile (getDiffUIStatePath env env.profile))) fun _ =>
    tpure (some diff)
  else tpure (env.uiStateDiffFile env.profile)

/-- The `modified` map of `serializeUIState`: every live entry whose
value is strictly (`!==`) different from the ancestor's effective value
(an absent ancestor key always differs). -/
def uiStateModified (editor profile : List (String × JVal)) : List (String × JVal) :=
  editor.foldl (fun m kv =>
    if !(jsStrictEqOpt kv.2 (lookupKey profile kv.1)) then setKey m kv.1 kv.2 else m) []

/-- The inheriting branch of `serializeUIState` (see `serializeUIStateT`). -/
def serializeUIStateInheritingT (fuel : Nat) (env : Env) (parent : String)
    (editor : List (String × JVal)) : TraceM (Option UIStateDiff × Option UIStateDiff) :=
  tbind (listProfileUIStatePropertiesT fuel env parent) fun profile =>
  let diff : UIStateDiff :=
    { modified := uiStateModified editor profile,
      removed := arrayDiff (profile.map (·.1)) (editor.map (·.1)) }
  tbind (saveUIStateDiffT env diff) fun fileAfter =>
  tpure (some diff, fileAfter)

/-- `serializeUIState`: for an inheriting profile compute
`removed` (ancestor keys absent from the live snapshot) and
`modified` (live entries whose value is strictly (`!==`) different from
the ancestor's effective value), and hand the diff to `saveUIStateDiff`;
for a root profile write the full snapshot.  Returns the computed diff
(`none` for a root profile) and the `ui-state.diff.yml` content after
the call. -/
def serializeUIStateT (fuel : Nat) (env : Env) (profileSettings : ProfileSettings)
    (extensions : Option ExtensionList) :
    TraceM (Option UIStateDiff × Option UIStateDiff) :=
  tbind (listEditorUIStatePropsT env extensions) fun editor =>
  match profileSettings.extendsProfile with
  | some parent => serializeUIStateInheritingT fuel env parent editor
  | none =>
    tbind (tmutate (.writeFile (getProfileUIStatePath env env.profile))) fun _ =>
    tpure (none, env.uiStateDiffFile env.profile)

/-- The removal/pruning loop of `serializeSnippets` for an inheriting
profile: walk the live snippet files; a file whose hash equals the
inherited hash is pruned from the set to copy; a live file with no
truthy inherited hash is recorded as removed — the source's `removed`
accumulator actually records live files *absent* from the ancestor
index. -/
def serializeSnippetsStep (env : Env) (profile : List (String × String))
    (st : List String × List String) (fc : String × String) :
    List String × List String :=
  let hash := env.sha1 fc.2
  match lookupKey profile fc.1 with
  | some h =>
    if h ≠ "" then
      (if hash == h then (st.1, st.2.erase fc.1) else st)
    else (st.1 ++ [fc.1], st.2)
  | none => (st.1 ++ [fc.1], st.2)

/-- The directory write at the end of `serializeSnippets`: empty and
refill the profile's snippets directory, or remove it when no file
remains. -/
def snippetsDirWriteT (env : Env) (kept : List String) : TraceM Unit :=
  if kept.length > 0 then
    tbind (tmutate (.emptyDir (getProfileSnippetsPath env env.profile))) fun _ =>
    tfoldl kept () (fun _ f => tbind (tmutate (.copyFile (getEditorSnippetsPath env ++ "/" ++ f) (getProfileSnippetsPath env env.profile ++ "/" ++ f))) fun _ => tpure ())
  else tmutate (.removeFile (getProfileSnippetsPath env env.profile))

/-- The removal list and the pruned copy set that the inheriting branch
of `serializeSnippets` computes from the live files and the inherited
hash index. -/
def serializeSnippetsRemovedKept (env : Env) (profile : List (String × String)) :
    List String × List String :=
  let editorNames := env.editorSnippets.map (·.1)
  if editorNames.length > 0 then
    env.editorSnippets.foldl (serializeSnippetsStep env profile) ([], editorNames)
  else (profile.map (·.1), editorNames)

/-- The inheriting branch of `serializeSnippets` (see
`serializeSnippetsT`). -/
def serializeSnippetsInheritingT (fuel : Nat) (env : Env) (parent : String) :
    TraceM (List String × List String × Option (List (String × List String))) :=
  tbind (listProfileSnippetHashesT fuel env parent) fun profile =>
  tbind (tquery "read editor snippet files") fun _ =>
  let rc := serializeSnippetsRemovedKept env profile
  tbind (if rc.1.length > 0 then
      tmutate (.writeFile (getDiffSnippetsPath env env.profile))
    else tpure ()) fun _ =>
  tbind (snippetsDirWriteT env rc.2) fun _ =>
  tpure (rc.1, rc.2,
    if rc.1.length > 0 then some (saveSnippetsDiffDoc rc.1)
    else env.snippetsDiffFile env.profile)

/-- `serializeSnippets`: returns `(removed, kept, fileAfter)` — the
computed removal list (empty for a root profile), the live files copied
into the profile directory, and the `snippets.diff.yml` content after
the call (written only when `removed` is non-empty, never deleted). -/
def serializeSnippetsT (fuel : Nat) (env : Env) (profileSettings : ProfileSettings) :
    TraceM (List String × List String × Option (List (String × List String))) :=
  tbind (tquery "listEditorSnippets") fun _ =>
  match profileSettings.extendsProfile with
  | some parent => serializeSnippetsInheritingT fuel env parent
  | none =>
    let kept := env.editorSnippets.map (·.1)
    tbind (snippetsDirWriteT env kept) fun _ =>
    tpure ([], kept, env.snippetsDiffFile env.profile)

/-- A `WorkspaceConfiguration` global value of one of the four sync
policy fields. -/
inductive CVal where
  | cbool (b : Bool)
  | cstrs (l : List String)
  | cress (l : List Resource)
deriving DecidableEq, Repr

/-- Field access `ancestors[property]` on a sync-settings document. -/
def ProfileSyncSettings.getField (s : ProfileSyncSettings) : String → Option CVal
  | "keybindingsPerPlatform" => s.keybindingsPerPlatform.map .cbool
  | "ignoredExtensions" => s.ignoredExtensions.map .cstrs
  | "ignoredSettings" => s.ignoredSettings.map .cstrs
  | "resources" => s.resources.map .cress
  | _ => none

/-- The property list iterated by `saveProfileSyncSettings`. -/
def syncSettingsProperties : List String :=
  ["keybindingsPerPlatform", "ignoredExtensions", "ignoredSettings", "resources"]

/-- `deepEqual(ancestors[property], globalValue)` (from the
`fast-equals` package): structural equality; comparing `undefined` with
a present value is false. -/
def cvalDeepEqualOpt (a : Option CVal) (v : CVal) : Bool :=
  match a with
  | some w => w == v
  | none => false

/-- The loop body of `saveProfileSyncSettings`: every explicitly-set
field is collected into the document; the counter grows only for a
field that differs (by deep equality) from the ancestor's resolved
value, or for every set field when there is no ancestor. -/
def saveSyncSettingsStep (ancestors : Option ProfileSyncSettings)
    (config : String → Option CVal) (st : List (String × CVal) × Nat)
    (property : String) : List (String × CVal) × Nat :=
  match config property with
  | some v =>
    let differs := match ancestors with
      | none => true
      | some anc => !(cvalDeepEqualOpt (anc.getField property) v)
    (st.1 ++ [(property, v)], if differs then st.2 + 1 else st.2)
  | none => st

/-- `saveProfileSyncSettings`: collect every explicitly-set policy
field; when at least one differs from the inherited ancestor's resolved
value, write the whole collection to `.sync.yml`; otherwise delete
`.sync.yml`.  The legacy `config.yml` is always deleted.  Returns the
`.sync.yml` content after the call. -/
def saveProfileSyncSettingsT (fuel : Nat) (env : Env) (config : String → Option CVal) :
    TraceM (Option (List (String × CVal))) :=
  tbind (loadProfileSettingsT env env.profile) fun profile =>
  tbind (match profile.extendsProfile with
    | some parent =>
      tbind (loadProfileSyncSettingsT fuel env parent) fun a => tpure (some a)
    | none => tpure none) fun ancestors =>
  let st := syncSettingsProperties.foldl (saveSyncSettingsStep ancestors config) ([], 0)
  tbind (tmutate (.removeFile (getProfileSyncSettingsOldPath env env.profile))) fun _ =>
  if st.2 > 0 then
    tbind (tmutate (.writeFile (getProfileSyncSettingsPath env env.profile))) fun _ =>
    tpure (some st.1)
  else
    tbind (tmutate (.removeFile (getProfileSyncSettingsPath env env.profile))) fun _ =>
    tpure none

/-! ## C2 — snippet hash chain vs the removal diff document -/

/-- Concrete store for C2: `child` extends `base`; `child` owns a
removal diff document exactly as `saveSnippetsDiff` writes it (key
`removed`); `base` owns one snippet file. -/
def snippetsEnvC2 : Env :=
  { profile := "child",
    profileSettings := fun p =>
      if p == "child" then some { extendsProfile := some "base" }
      else if p == "base" then some {} else none,
    snippetsDiffFile := fun p =>
      if p == "child" then some [("removed", ["old.code-snippets"])] else none,
    snippetFiles := fun p =>
      if p == "base" then [("base.code-snippets", "basecontent")] else [] }

/-- C2 — the claim says `listProfileSnippetHashes` applies the removal
diff written by `saveSnippetsDiff` (key `removed`) and returns normally;
the source instead reads the key `remove`, which is absent from every
document this engine writes, and iterating the resulting `undefined`
throws a `TypeError`.  The sibling `listProfileSnippetPaths`, which
reads the correct `removed` key, succeeds on the same store. -/
theorem listProfileSnippetHashes_typeError :
    (listProfileSnippetHashesT 2 snippetsEnvC2 "child").res
      = Except.error "TypeError: diff.remove is not iterable"
    ∧ lookupKey ((snippetsEnvC2.snippetsDiffFile "child").getD []) "removed"
      = some ["old.code-snippets"]
    ∧ (listProfileSnippetPathsT 2 snippetsEnvC2 "child").res
      = Except.ok [("base.code-snippets",
          getProfileSnippetsPath snippetsEnvC2 "base" ++ "/" ++ "base.code-snippets")] := by
  refine ⟨rfl, rfl, rfl⟩

/-! ## C5 — legacy uninstall decode -/

/-- Concrete store for C5: `child` extends `root`; `child`'s stored
extension document is in the legacy string-array shape with
`disabled: ["a.one"]` and `uninstall: ["b.two"]`. -/
def extEnvC5 : Env :=
  { profile := "child",
    profileSettings := fun p =>
      if p == "child" then some { extendsProfile := some "root" }
      else if p == "root" then some {} else none,
    extDoc := fun p =>
      if p == "child" then
        some { disabled := .strs ["a.one"], enabled := .strs [],
               uninstall := some (.strs ["b.two"]) }
      else if p == "root" then
        some { disabled := .strs [], enabled := .strs [] }
      else none }

/-- C5 — the claim says a legacy string-array `uninstall` list decodes
to records whose ids are the stored uninstall names; the source maps
`raw.disabled` instead (line 441), so the decoded ids are the stored
*disabled* names: here `["a.one"]` instead of `["b.two"]`.  The bug
cascades: the resolved list drops `a.one` entirely, while the decode
the claim describes would keep `a.one` disabled (third conjunct). -/
theorem listProfileExtensions_uninstall_decode_bug :
    decodeUninstall (.strs ["a.one"]) (some (.strs ["b.two"]))
      = Except.ok (some [⟨"a.one", NIL_UUID⟩])
    ∧ (listProfileExtensionsT 2 extEnvC5 "child").res
      = Except.ok { disabled := [], enabled := [] }
    ∧ applyExtensionsDiff { disabled := [], enabled := [] }
        { disabled := [⟨"a.one", NIL_UUID⟩], enabled := [],
          uninstall := some [⟨"b.two", NIL_UUID⟩] }
      = { disabled := [⟨"a.one", NIL_UUID⟩], enabled := [] } := by
  refine ⟨rfl, rfl, rfl⟩

/-! ## C8 — sync settings resolution along the ancestor chain -/

lemma loadProfileSyncSettingsT_res_succ (fuel : Nat) (env : Env) (p : String) :
    (loadProfileSyncSettingsT (fuel + 1) env p).res =
      match env.syncNew p with
      | some d => Except.ok d
      | none =>
        match env.syncOld p with
        | some d => Except.ok d
        | none =>
          match ((env.profileSettings p).getD {}).extendsProfile with
          | some parent => (loadProfileSyncSettingsT fuel env parent).res
          | none => Except.error "sync settings file of profile can not be found" := by
  rw [loadProfileSyncSettingsT]
  cases hnew : env.syncNew p with
  | some d => simp [tbind, tquery, tpure, hnew]
  | none =>
    cases hold : env.syncOld p with
    | some d => simp [tbind, tquery, tpure, hnew, hold]
    | none =>
      cases hext : ((env.profileSettings p).getD {}).extendsProfile with
      | some parent =>
        simp [tbind, tquery, tpure, tthrow, loadProfileSettingsT, hnew, hold, hext]
      | none =>
        simp [tbind, tquery, tpure, tthrow, loadProfileSettingsT, hnew, hold, hext]

/-- Whether a profile owns a sync-policy document at either path (the
condition tested by each level of `loadProfileSyncSettings`). -/
def hasSyncDoc (env : Env) (r : String) : Bool :=
  (env.syncNew r).isSome || (env.syncOld r).isSome

/-- The document `loadProfileSyncSettings` returns for a profile that
has one (preferring `.sync.yml` over `config.yml`). -/
def ownSyncDoc (env : Env) (r : String) : ProfileSyncSettings :=
  match env.syncNew r with
  | some d => d
  | none => (env.syncOld r).getD default

/-- C8 — `loadProfileSyncSettings` raises the fatal error exactly when no
profile along the `extends` chain has a document at either the current
(`.sync.yml`) or the legacy (`config.yml`) path; when one exists, the
nearest one is returned (preferring `.sync.yml` at each profile) and no
error is raised. -/
theorem loadProfileSyncSettings_chain (fuel : Nat) (env : Env) (p : String)
    (c : List String) (hc : profileChain fuel env p = some c) :
    ((loadProfileSyncSettingsT fuel env p).res
        = Except.error "sync settings file of profile can not be found"
      ↔ ∀ q ∈ c, env.syncNew q = none ∧ env.syncOld q = none)
    ∧ (∀ q, c.find? (hasSyncDoc env) = some q →
        (loadProfileSyncSettingsT fuel env p).res = Except.ok (ownSyncDoc env q)) := by
  induction fuel generalizing p c with
  | zero => simp [profileChain] at hc
  | succ fuel ih =>
    rw [profileChain] at hc
    cases hext : ((env.profileSettings p).getD {}).extendsProfile with
    | none =>
      simp only [hext] at hc
      injection hc with hc
      subst hc
      by_cases hdoc : hasSyncDoc env p = true
      · have hres : (loadProfileSyncSettingsT (fuel + 1) env p).res
            = Except.ok (ownSyncDoc env p) := by
          rw [loadProfileSyncSettingsT_res_succ]
          unfold hasSyncDoc at hdoc
          unfold ownSyncDoc
          cases hnew : env.syncNew p with
          | some d => rfl
          | none =>
            cases hold : env.syncOld p with
            | some d => rfl
            | none => rw [hnew, hold] at hdoc; simp at hdoc
        rw [hres]
        constructor
        · constructor
          · intro h; exact absurd h (by simp)
          · intro hall
            have h1 := hall p (List.mem_singleton_self p)
            unfold hasSyncDoc at hdoc
            rw [h1.1, h1.2] at hdoc
            exact absurd hdoc (by simp)
        · intro q hq
          rw [List.find?_cons_of_pos _ hdoc] at hq
          injection hq with hq
          subst hq
          rfl
      · have hdoc2 : env.syncNew p = none ∧ env.syncOld p = none := by
          unfold hasSyncDoc at hdoc
          constructor
          · cases h : env.syncNew p
            · rfl
            · rw [h] at hdoc; simp at hdoc
          · cases h : env.syncOld p
            · rfl
            · rw [h] at hdoc; simp at hdoc
        have hres : (loadProfileSyncSettingsT (fuel + 1) env p).res
            = Except.error "sync settings file of profile can not be found" := by
          rw [loadProfileSyncSettingsT_res_succ, hdoc2.1, hdoc2.2, hext]
        rw [hres]
        constructor
        · constructor
          · intro _ q hq
            rw [List.mem_singleton] at hq
            subst hq
            exact hdoc2
          · intro _; rfl
        · intro q hq
          rw [List.find?_cons_of_neg _ (by simp [hdoc]), List.find?_nil] at hq
          exact absurd hq (by simp)
    | some parent =>
      simp only [hext] at hc
      cases hpc : profileChain fuel env parent with
      | none => rw [hpc] at hc; exact absurd hc (by simp)
      | some ct =>
        rw [hpc] at hc
        rw [show Option.map (fun x => p :: x) (some ct) = some (p :: ct) from rfl] at hc
        injection hc with hc
        subst hc
        obtain ⟨ih1, ih2⟩ := ih parent ct hpc
        by_cases hdoc : hasSyncDoc env p = true
        · have hres : (loadProfileSyncSettingsT (fuel + 1) env p).res
              = Except.ok (ownSyncDoc env p) := by
            rw [loadProfileSyncSettingsT_res_succ]
            unfold hasSyncDoc at hdoc
            unfold ownSyncDoc
            cases hnew : env.syncNew p with
            | some d => rfl
            | none =>
              cases hold : env.syncOld p with
              | some d => rfl
              | none => rw [hnew, hold] at hdoc; simp at hdoc
          rw [hres]
          constructor
          · constructor
            · intro h; exact absurd h (by simp)
            · intro hall
              have h1 := hall p (List.mem_cons_self p ct)
              unfold hasSyncDoc at hdoc
              rw [h1.1, h1.2] at hdoc
              exact absurd hdoc (by simp)
          · intro q hq
            rw [List.find?_cons_of_pos _ hdoc] at hq
            injection hq with hq
            subst hq
            rfl
        · have hdoc2 : env.syncNew p = none ∧ env.syncOld p = none := by
            unfold hasSyncDoc at hdoc
            constructor
            · cases h : env.syncNew p
              · rfl
              · rw [h] at hdoc; simp at hdoc
            · cases h : env.syncOld p
              · rfl
              · rw [h] at hdoc; simp at hdoc
          have hres : (loadProfileSyncSettingsT (fuel + 1) env p).res
              = (loadProfileSyncSettingsT fuel env parent).res := by
            rw [loadProfileSyncSettingsT_res_succ, hdoc2.1, hdoc2.2, hext]
          rw [hres]
          constructor
          · rw [ih1]
            constructor
            · intro hall q hq
              rcases List.mem_cons.mp hq with rfl | hq
              · exact hdoc2
              · exact hall q hq
            · intro hall q hq
              exact hall q (List.mem_cons_of_mem _ hq)
          · intro q hq
            rw [List.find?_cons_of_neg _ (by simp [hdoc])] at hq
            exact ih2 q hq

/-- Concrete store for the C8 witness: `child` extends `root`; only
`root` carries a sync settings document. -/
def syncEnvC8 : Env :=
  { profile := "child",
    profileSettings := fun p =>
      if p == "child" then some { extendsProfile := some "root" }
      else if p == "root" then some {} else none,
    syncNew := fun p =>
      if p == "root" then some { keybindingsPerPlatform := some false } else none }

/-- C8 witness: the chain theorem applied at a concrete two-profile
store — the nearest (root) document is returned without error. -/
theorem loadProfileSyncSettings_chain_witness :
    (loadProfileSyncSettingsT 2 syncEnvC8 "child").res
      = Except.ok { keybindingsPerPlatform := some false } :=
  (loadProfileSyncSettings_chain 2 syncEnvC8 "child" ["child", "root"]
    (by rfl)).2 "root" (by rfl)

/-! ## C10 — restoring keybindings with no stored file -/

/-- Concrete store for the C10 counterexample: `child` extends `root`
and carries its own (empty) `.sync.yml`, so a restore of `child`
resolves its sync settings and reaches `restoreKeybindings` with
ancestor `root`; `root` has neither a sync document nor any stored
keybindings file, and a live keybindings file exists. -/
def kbEnvC10 : Env :=
  { profile := "child",
    profileSettings := fun p =>
      if p == "child" then some { extendsProfile := some "root" }
      else if p == "root" then some {} else none,
    syncNew := fun p => if p == "child" then some {} else none,
    editorKeybindings := some "[old bindings]" }

/-- C10 counterexample — the claim says that whenever the resolved root
ancestor has no stored keybindings file for the applicable platform
path, `restoreKeybindings` overwrites the live file with `'[]'` and
never raises; but when the root ancestor's sync settings cannot be
resolved (it is the chain end and owns no document),
`loadProfileSyncSettings` throws before any write: the call errors and
its trace contains no mutation, leaving the live file unchanged. -/
theorem restoreKeybindings_raises_counterexample :
    (restoreKeybindingsT 2 kbEnvC10 "root").res
      = Except.error "sync settings file of profile can not be found"
    ∧ kbEnvC10.keybindingsFiles (getProfileKeybindingsPath kbEnvC10 "root" true "") = none
    ∧ (restoreKeybindingsT 2 kbEnvC10 "root").trace.all (fun e => !e.isMutation) = true
    ∧ (loadProfileSyncSettingsT 2 kbEnvC10 "child").res = Except.ok {} := by
  refine ⟨rfl, rfl, rfl, rfl⟩

/-- C10 amended — provided the ancestor's sync settings resolve, when no
stored keybindings file exists at the applicable platform path,
`restoreKeybindings` writes the literal empty array document `'[]'` to
the live keybindings path and raises no error.  (The
keybindings-per-platform mismatch branch of `getProfileKeybindings`
cannot fire on this call path: both values come from the same resolved
document.) -/
theorem restoreKeybindings_writes_empty (fuel : Nat) (env : Env) (a : String)
    (s : ProfileSyncSettings)
    (hs : (loadProfileSyncSettingsT fuel env a).res = Except.ok s)
    (hf : env.keybindingsFiles
      (getProfileKeybindingsPath env a (s.keybindingsPerPlatform.getD true) "") = none) :
    (restoreKeybindingsT fuel env a).res
      = Except.ok (getEditorKeybindingsPath env, "[]") := by
  have hk : (getProfileKeybindingsT fuel env a (s.keybindingsPerPlatform.getD true)).res
      = Except.ok none := by
    unfold getProfileKeybindingsT
    simp only [tbind_res_ok hs]
    simp [bne_self_eq_false, tbind, tquery, tpure, hf]
  unfold restoreKeybindingsT
  simp only [tbind_res_ok hs]
  simp only [tbind_res_ok hk]
  simp [tbind, tmutate, tpure]

/-- Concrete store for the C10 witness: a root profile with a sync
document and no stored keybindings file. -/
def kbEnvC10w : Env :=
  { profile := "solo",
    profileSettings := fun p => if p == "solo" then some {} else none,
    syncNew := fun p => if p == "solo" then some {} else none }

/-- C10 witness: the amended theorem applied at a concrete store. -/
theorem restoreKeybindings_writes_empty_witness :
    (restoreKeybindingsT 1 kbEnvC10w "solo").res
      = Except.ok (getEditorKeybindingsPath kbEnvC10w, "[]") :=
  restoreKeybindings_writes_empty 1 kbEnvC10w "solo" {} (by rfl) (by rfl)

/-! ## Generic trace lemmas -/

lemma tbind_trace (x : TraceM α) (f : α → TraceM β) :
    (tbind x f).trace
      = x.trace ++ (match x.res with | .ok a => (f a).trace | .error _ => []) := by
  unfold tbind
  cases x.res <;> simp

lemma tbind_res (x : TraceM α) (f : α → TraceM β) :
    (tbind x f).res
      = (match x.res with | .ok a => (f a).res | .error e => .error e) := by
  unfold tbind
  cases x.res <;> rfl

lemma tracePred_tbind {P : Event → Prop} {x : TraceM α} {f : α → TraceM β}
    (hx : ∀ e ∈ x.trace, P e) (hf : ∀ a, ∀ e ∈ (f a).trace, P e) :
    ∀ e ∈ (tbind x f).trace, P e := by
  intro e he
  cases hres : x.res with
  | ok a =>
    rw [tbind_trace_ok hres] at he
    rcases List.mem_append.mp he with h | h
    · exact hx e h
    · exact hf a e h
  | error msg =>
    rw [tbind_trace_error hres] at he
    exact hx e he

lemma tracePred_tfoldl {P : Event → Prop} {f : β → α → TraceM β}
    (hf : ∀ b a, ∀ e ∈ (f b a).trace, P e) :
    ∀ (l : List α) (init : β), ∀ e ∈ (tfoldl l init f).trace, P e := by
  intro l
  induction l with
  | nil => intro init e he; simp [tfoldl, tpure] at he
  | cons a t ih =>
    intro init
    exact tracePred_tbind (hf init a) (fun b => ih b)

lemma tfoldl_unit_res_ok {l : List α} {f : Unit → α → TraceM Unit}
    (hf : ∀ a, (f () a).res = .ok ()) : (tfoldl l () f).res = .ok () := by
  induction l with
  | nil => rfl
  | cons a t ih => simp [tfoldl, tbind_res, hf a, ih]

lemma queryOnly_loadProfileSettingsT (env : Env) (p : String) :
    QueryOnly (loadProfileSettingsT env p).trace :=
  queryOnly_tbind queryOnly_tquery (fun _ => queryOnly_tpure)

lemma queryOnly_loadProfileSyncSettingsT (env : Env) :
    ∀ fuel p, QueryOnly (loadProfileSyncSettingsT fuel env p).trace := by
  intro fuel
  induction fuel with
  | zero => intro p; exact queryOnly_tthrow
  | succ fuel ih =>
    intro p
    unfold loadProfileSyncSettingsT
    refine queryOnly_tbind queryOnly_tquery (fun _ => ?_)
    cases env.syncNew p with
    | some d => exact queryOnly_tbind queryOnly_tquery (fun _ => queryOnly_tpure)
    | none =>
      refine queryOnly_tbind queryOnly_tquery (fun _ => ?_)
      cases env.syncOld p with
      | some d => exact queryOnly_tbind queryOnly_tquery (fun _ => queryOnly_tpure)
      | none =>
        refine queryOnly_tbind (queryOnly_loadProfileSettingsT env p) (fun settings => ?_)
        cases settings.extendsProfile with
        | some parent => exact ih parent
        | none => exact queryOnly_tthrow

lemma queryOnly_getAncestorProfileT (env : Env) :
    ∀ fuel p, QueryOnly (getAncestorProfileT fuel env p).trace := by
  intro fuel
  induction fuel with
  | zero => intro p; exact queryOnly_tthrow
  | succ fuel ih =>
    intro p
    unfold getAncestorProfileT
    refine queryOnly_tbind (queryOnly_loadProfileSettingsT env p) (fun settings => ?_)
    cases settings.extendsProfile with
    | some parent => exact ih parent
    | none => exact queryOnly_tpure

lemma queryOnly_listProfileExtensionsT (env : Env) :
    ∀ fuel p, QueryOnly (listProfileExtensionsT fuel env p).trace := by
  intro fuel
  induction fuel with
  | zero => intro p; exact queryOnly_tthrow
  | succ fuel ih =>
    intro p
    unfold listProfileExtensionsT
    refine queryOnly_tbind (queryOnly_loadProfileSettingsT env p) (fun settings => ?_)
    cases settings.extendsProfile with
    | none =>
      refine queryOnly_tbind queryOnly_tquery (fun _ => ?_)
      cases env.extDoc p with
      | some raw => exact queryOnly_tbind queryOnly_tquery (fun _ => queryOnly_tpure)
      | none =>
        refine queryOnly_tbind queryOnly_tquery (fun _ => ?_)
        cases env.extDocOld p with
        | some raw => exact queryOnly_tbind queryOnly_tquery (fun _ => queryOnly_tpure)
        | none => exact queryOnly_tpure
    | some parent =>
      refine queryOnly_tbind queryOnly_tquery (fun _ => ?_)
      cases env.extDoc p with
      | some raw =>
        refine queryOnly_tbind queryOnly_tquery (fun _ => ?_)
        refine queryOnly_tbind queryOnly_tof (fun uninstall => ?_)
        exact queryOnly_tbind (ih parent) (fun ancestors => queryOnly_tpure)
      | none =>
        refine queryOnly_tbind queryOnly_tquery (fun _ => ?_)
        cases env.extDocOld p with
        | some raw =>
          refine queryOnly_tbind queryOnly_tquery (fun _ => ?_)
          refine queryOnly_tbind queryOnly_tof (fun uninstall => ?_)
          exact queryOnly_tbind (ih parent) (fun ancestors => queryOnly_tpure)
        | none => exact ih parent

lemma queryOnly_listProfileSnippetHashesT (env : Env) :
    ∀ fuel p, QueryOnly (listProfileSnippetHashesT fuel env p).trace := by
  intro fuel
  induction fuel with
  | zero => intro p; exact queryOnly_tthrow
  | succ fuel ih =>
    intro p
    unfold listProfileSnippetHashesT
    refine queryOnly_tbind (queryOnly_loadProfileSettingsT env p) (fun settings => ?_)
    cases settings.extendsProfile with
    | some parent =>
      refine queryOnly_tbind (ih parent) (fun inherited => ?_)
      refine queryOnly_tbind queryOnly_tquery (fun _ => ?_)
      refine queryOnly_tbind ?_
        (fun snippets => queryOnly_tbind queryOnly_tquery (fun _ => queryOnly_tpure))
      cases env.snippetsDiffFile p with
      | some doc =>
        refine queryOnly_tbind queryOnly_tquery (fun _ => ?_)
        cases lookupKey doc "remove" with
        | some names => exact queryOnly_tpure
        | none => exact queryOnly_tthrow
      | none => exact queryOnly_tpure
    | none =>
      exact queryOnly_tbind queryOnly_tquery (fun _ => queryOnly_tpure)

lemma queryOnly_listProfileSnippetPathsT (env : Env) :
    ∀ fuel p, QueryOnly (listProfileSnippetPathsT fuel env p).trace := by
  intro fuel
  induction fuel with
  | zero => intro p; exact queryOnly_tthrow
  | succ fuel ih =>
    intro p
    unfold listProfileSnippetPathsT
    refine queryOnly_tbind (queryOnly_loadProfileSettingsT env p) (fun settings => ?_)
    cases settings.extendsProfile with
    | some parent =>
      refine queryOnly_tbind (ih parent) (fun inherited => ?_)
      refine queryOnly_tbind queryOnly_tquery (fun _ => ?_)
      refine queryOnly_tbind ?_
        (fun snippets => queryOnly_tbind queryOnly_tquery (fun _ => queryOnly_tpure))
      cases env.snippetsDiffFile p with
      | some doc =>
        refine queryOnly_tbind queryOnly_tquery (fun _ => ?_)
        cases lookupKey doc "removed" with
        | some names => exact queryOnly_tpure
        | none => exact queryOnly_tthrow
      | none => exact queryOnly_tpure
    | none =>
      exact queryOnly_tbind queryOnly_tquery (fun _ => queryOnly_tpure)

lemma queryOnly_loadUIStateDiffT (env : Env) (p : String) :
    QueryOnly (loadUIStateDiffT env p).trace :=
  queryOnly_tbind queryOnly_tquery (fun _ => queryOnly_tpure)

lemma queryOnly_listProfileUIStatePropertiesT (env : Env) :
    ∀ fuel p, QueryOnly (listProfileUIStatePropertiesT fuel env p).trace := by
  intro fuel
  induction fuel with
  | zero => intro p; exact queryOnly_tthrow
  | succ fuel ih =>
    intro p
    unfold listProfileUIStatePropertiesT
    refine queryOnly_tbind (queryOnly_loadProfileSettingsT env p) (fun settings => ?_)
    cases settings.extendsProfile with
    | none =>
      refine queryOnly_tbind queryOnly_tquery (fun _ => ?_)
      cases env.uiStateFile p with
      | none => exact queryOnly_tpure
      | some doc => exact queryOnly_tbind queryOnly_tquery (fun _ => queryOnly_tpure)
    | some parent =>
      refine queryOnly_tbind (ih parent) (fun properties => ?_)
      refine queryOnly_tbind (queryOnly_loadUIStateDiffT env p) (fun diff => ?_)
      cases diff with
      | none => exact queryOnly_tpure
      | some d => exact queryOnly_tpure

lemma queryOnly_listEditorUIStatePropsT (env : Env) (extensions : Option ExtensionList) :
    QueryOnly (listEditorUIStatePropsT env extensions).trace := by
  unfold listEditorUIStatePropsT
  refine queryOnly_tbind ?_ (fun exts => ?_)
  · cases extensions with
    | some e => exact queryOnly_tpure
    | none => exact queryOnly_tbind queryOnly_tquery (fun _ => queryOnly_tpure)
  · refine queryOnly_tbind queryOnly_tquery (fun _ => ?_)
    cases env.stateDbRows (ids exts.disabled ++ ids exts.enabled) with
    | none => exact queryOnly_tpure
    | some rows => exact queryOnly_tbind queryOnly_tquery (fun _ => queryOnly_tpure)

lemma queryOnly_canManageExtensionsT (env : Env) :
    QueryOnly (canManageExtensionsT env).trace :=
  queryOnly_tbind queryOnly_tquery (fun _ => queryOnly_tpure)

lemma queryOnly_shouldRestartUIStateDiffersT (fuel : Nat) (env : Env)
    (extensions : ExtensionList) :
    QueryOnly (shouldRestartUIStateDiffersT fuel env extensions).trace := by
  unfold shouldRestartUIStateDiffersT
  refine queryOnly_tbind (queryOnly_listEditorUIStatePropsT env _) (fun editor => ?_)
  exact queryOnly_tbind (queryOnly_listProfileUIStatePropertiesT env fuel env.profile)
    (fun profile => queryOnly_tpure)

/-- C3 helper: `shouldRestartApp` performs no mutation, on every store
and resource selection. -/
lemma queryOnly_shouldRestartAppT (fuel : Nat) (env : Env) (resources : List Resource) :
    QueryOnly (shouldRestartAppT fuel env resources).trace := by
  unfold shouldRestartAppT
  split
  · refine queryOnly_tbind (queryOnly_listProfileExtensionsT env fuel env.profile)
      (fun extensions => ?_)
    split
    · refine queryOnly_tbind (queryOnly_canManageExtensionsT env) (fun can => ?_)
      split
      · exact queryOnly_tpure
      · exact queryOnly_shouldRestartUIStateDiffersT fuel env extensions
    · exact queryOnly_shouldRestartUIStateDiffersT fuel env extensions
  · exact queryOnly_tpure

/-! ## C6 — empty diff documents -/

lemma snippetsDirWriteT_res (env : Env) (kept : List String) :
    (snippetsDirWriteT env kept).res = .ok () := by
  unfold snippetsDirWriteT
  split
  · rw [tbind_res]
    exact tfoldl_unit_res_ok (fun a => by simp [tbind_res, tmutate, tpure])
  · rfl

lemma snippetsDirWriteT_no_writeFile (env : Env) (kept : List String) (p : String) :
    Event.mutate (.writeFile p) ∉ (snippetsDirWriteT env kept).trace := by
  intro hmem
  have hall : ∀ e ∈ (snippetsDirWriteT env kept).trace, e ≠ Event.mutate (.writeFile p) := by
    unfold snippetsDirWriteT
    split
    · refine tracePred_tbind ?_ (fun _ => ?_)
      · intro e he
        simp only [tmutate, List.mem_singleton] at he
        subst he
        simp
      · refine tracePred_tfoldl (fun b a => ?_) _ _
        refine tracePred_tbind ?_ (fun _ => ?_)
        · intro e he
          simp only [tmutate, List.mem_singleton] at he
          subst he
          simp
        · intro e he
          simp [tpure] at he
    · intro e he
      simp only [tmutate, List.mem_singleton] at he
      subst he
      simp
  exact hall _ hmem rfl

lemma serializeSnippetsInheriting_res {fuel : Nat} {env : Env} {parent : String}
    {profile : List (String × String)}
    (hh : (listProfileSnippetHashesT fuel env parent).res = Except.ok profile) :
    (serializeSnippetsInheritingT fuel env parent).res
      = Except.ok ((serializeSnippetsRemovedKept env profile).1,
          (serializeSnippetsRemovedKept env profile).2,
          if (serializeSnippetsRemovedKept env profile).1.length > 0
          then some (saveSnippetsDiffDoc (serializeSnippetsRemovedKept env profile).1)
          else env.snippetsDiffFile env.profile) := by
  unfold serializeSnippetsInheritingT
  by_cases hlen : (serializeSnippetsRemovedKept env profile).1.length > 0 <;>
    simp [tbind_res, hh, tquery, tpure, tmutate, snippetsDirWriteT_res, hlen]

lemma serializeSnippetsInheriting_trace {fuel : Nat} {env : Env} {parent : String}
    {profile : List (String × String)}
    (hh : (listProfileSnippetHashesT fuel env parent).res = Except.ok profile) :
    (serializeSnippetsInheritingT fuel env parent).trace
      = (listProfileSnippetHashesT fuel env parent).trace
        ++ [Event.query "read editor snippet files"]
        ++ (if (serializeSnippetsRemovedKept env profile).1.length > 0
            then [Event.mutate (.writeFile (getDiffSnippetsPath env env.profile))] else [])
        ++ (snippetsDirWriteT env (serializeSnippetsRemovedKept env profile).2).trace := by
  unfold serializeSnippetsInheritingT
  by_cases hlen : (serializeSnippetsRemovedKept env profile).1.length > 0 <;>
    simp [tbind_trace, tbind_res, hh, tquery, tpure, tmutate,
      snippetsDirWriteT_res, hlen]

lemma saveUIStateDiffT_res (env : Env) (diff : UIStateDiff) :
    (saveUIStateDiffT env diff).res
      = Except.ok (if diff.removed.length > 0 || !(isEmptyRecord diff.modified)
          then some diff else env.uiStateDiffFile env.profile) := by
  unfold saveUIStateDiffT
  split
  · next h => simp [tbind_res, tmutate, tpure, h]
  · next h => simp only [if_neg h, tpure]

lemma saveUIStateDiffT_trace (env : Env) (diff : UIStateDiff) :
    (saveUIStateDiffT env diff).trace
      = (if diff.removed.length > 0 || !(isEmptyRecord diff.modified)
          then [Event.mutate (.writeFile (getDiffUIStatePath env env.profile))] else []) := by
  unfold saveUIStateDiffT
  split
  · next h => simp [tbind_trace, tmutate, tpure, h]
  · next h => simp only [if_neg h, tpure]

lemma serializeUIStateInheriting_res {fuel : Nat} {env : Env} {parent : String}
    {editor props : List (String × JVal)}
    (hu : (listProfileUIStatePropertiesT fuel env parent).res = Except.ok props) :
    (serializeUIStateInheritingT fuel env parent editor).res
      = Except.ok (some { modified := uiStateModified editor props,
                          removed := arrayDiff (props.map (·.1)) (editor.map (·.1)) },
          if (arrayDiff (props.map (·.1)) (editor.map (·.1))).length > 0
              || !(isEmptyRecord (uiStateModified editor props))
          then some { modified := uiStateModified editor props,
                      removed := arrayDiff (props.map (·.1)) (editor.map (·.1)) }
          else env.uiStateDiffFile env.profile) := by
  unfold serializeUIStateInheritingT
  simp only [tbind_res, hu, saveUIStateDiffT_res, tpure]

lemma serializeUIStateInheriting_trace {fuel : Nat} {env : Env} {parent : String}
    {editor props : List (String × JVal)}
    (hu : (listProfileUIStatePropertiesT fuel env parent).res = Except.ok props) :
    (serializeUIStateInheritingT fuel env parent editor).trace
      = (listProfileUIStatePropertiesT fuel env parent).trace
        ++ (if (arrayDiff (props.map (·.1)) (editor.map (·.1))).length > 0
              || !(isEmptyRecord (uiStateModified editor props))
            then [Event.mutate (.writeFile (getDiffUIStatePath env env.profile))] else []) := by
  unfold serializeUIStateInheritingT
  rw [tbind_trace]
  simp only [hu]
  rw [tbind_trace]
  simp only [saveUIStateDiffT_res, saveUIStateDiffT_trace, tpure]
  split <;> simp

/-- Concrete store for the C6 counterexample: `child` extends `base`;
both resources compute an empty diff (no live snippets, no live or
stored UI state), yet `child` still carries a stale `snippets.diff.yml`
and a stale `ui-state.diff.yml` from a previous serialize. -/
def diffEnvC6 : Env :=
  { profile := "child",
    profileSettings := fun p =>
      if p == "child" then some { extendsProfile := some "base" }
      else if p == "base" then some {} else none,
    snippetsDiffFile := fun p =>
      if p == "child" then some [("removed", ["x.code-snippets"])] else none,
    uiStateDiffFile := fun p =>
      if p == "child" then some { modified := [], removed := ["leftover.key"] } else none }

/-- C6 counterexample — the claim says a diff document left over from a
previous serialize is deleted when the newly computed diff is empty; on
this store both computed diffs are empty and both stale documents
survive the serialize unchanged (the source has no delete call for
either path). -/
theorem serialize_stale_diff_persists :
    (serializeSnippetsT 2 diffEnvC6 { extendsProfile := some "base" }).res
      = Except.ok ([], [], some [("removed", ["x.code-snippets"])])
    ∧ (serializeUIStateT 2 diffEnvC6 { extendsProfile := some "base" }
        (some { disabled := [], enabled := [] })).res
      = Except.ok (some { modified := [], removed := [] },
          some { modified := [], removed := ["leftover.key"] }) := by
  refine ⟨rfl, rfl⟩

/-- C6 amended — an empty diff is never written: when the computed
snippets removal list (resp. UI-state diff) is empty, no write of the
diff document occurs and the document content on disk is left exactly as
it was (a stale document is *not* deleted); when the computed diff is
non-empty, the document is written with exactly the computed content. -/
theorem serialize_empty_diff_not_written (fuel : Nat) (env : Env) (parent : String)
    (profile : List (String × String))
    (hh : (listProfileSnippetHashesT fuel env parent).res = Except.ok profile)
    (editor props : List (String × JVal))
    (hu : (listProfileUIStatePropertiesT fuel env parent).res = Except.ok props) :
    ((serializeSnippetsRemovedKept env profile).1 = [] →
      (serializeSnippetsInheritingT fuel env parent).res
        = Except.ok ((serializeSnippetsRemovedKept env profile).1,
            (serializeSnippetsRemovedKept env profile).2, env.snippetsDiffFile env.profile)
      ∧ Event.mutate (.writeFile (getDiffSnippetsPath env env.profile))
          ∉ (serializeSnippetsInheritingT fuel env parent).trace)
    ∧ ((serializeSnippetsRemovedKept env profile).1 ≠ [] →
      (serializeSnippetsInheritingT fuel env parent).res
        = Except.ok ((serializeSnippetsRemovedKept env profile).1,
            (serializeSnippetsRemovedKept env profile).2,
            some (saveSnippetsDiffDoc (serializeSnippetsRemovedKept env profile).1))
      ∧ Event.mutate (.writeFile (getDiffSnippetsPath env env.profile))
          ∈ (serializeSnippetsInheritingT fuel env parent).trace)
    ∧ (arrayDiff (props.map (·.1)) (editor.map (·.1)) = [] →
        uiStateModified editor props = [] →
      (serializeUIStateInheritingT fuel env parent editor).res
        = Except.ok (some { modified := uiStateModified editor props,
                            removed := arrayDiff (props.map (·.1)) (editor.map (·.1)) },
            env.uiStateDiffFile env.profile)
      ∧ Event.mutate (.writeFile (getDiffUIStatePath env env.profile))
          ∉ (serializeUIStateInheritingT fuel env parent editor).trace) := by
  refine ⟨?_, ?_, ?_⟩
  · intro hempty
    have hlen : ¬((serializeSnippetsRemovedKept env profile).1.length > 0) := by
      rw [hempty]; simp
    constructor
    · rw [serializeSnippetsInheriting_res hh, if_neg hlen]
    · rw [serializeSnippetsInheriting_trace hh, if_neg hlen]
      intro hmem
      rcases List.mem_append.mp hmem with hmem | hmem
      · rcases List.mem_append.mp hmem with hmem | hmem
        · rcases List.mem_append.mp hmem with hmem | hmem
          · have := queryOnly_listProfileSnippetHashesT env fuel parent _ hmem
            simp [Event.isMutation] at this
          · simp at hmem
        · simp at hmem
      · exact snippetsDirWriteT_no_writeFile env _ _ hmem
  · intro hne
    have hlen : (serializeSnippetsRemovedKept env profile).1.length > 0 := by
      cases h : (serializeSnippetsRemovedKept env profile).1 with
      | nil => exact absurd h hne
      | cons a t => simp
    constructor
    · rw [serializeSnippetsInheriting_res hh, if_pos hlen]
    · rw [serializeSnippetsInheriting_trace hh, if_pos hlen]
      refine List.mem_append.mpr (Or.inl (List.mem_append.mpr (Or.inr ?_)))
      simp
  · intro hrem hmod
    constructor
    · rw [serializeUIStateInheriting_res hu,
        if_neg (by simp [hrem, hmod, isEmptyRecord])]
    · rw [serializeUIStateInheriting_trace hu,
        if_neg (by simp [hrem, hmod, isEmptyRecord])]
      rw [List.append_nil]
      intro hmem
      have := queryOnly_listProfileUIStatePropertiesT env fuel parent _ hmem
      simp [Event.isMutation] at this

/-- Concrete store for the C6 witness: like the counterexample but with
no stale documents; the empty computed diffs produce no diff writes. -/
def diffEnvC6w : Env :=
  { profile := "child",
    profileSettings := fun p =>
      if p == "child" then some { extendsProfile := some "base" }
      else if p == "base" then some {} else none }

/-- C6 witness: the amended theorem applied at a concrete store with
empty computed diffs. -/
theorem serialize_empty_diff_not_written_witness :
    (serializeSnippetsInheritingT 2 diffEnvC6w "base").res
      = Except.ok ([], [], none)
    ∧ Event.mutate (.writeFile (getDiffSnippetsPath diffEnvC6w "child"))
        ∉ (serializeSnippetsInheritingT 2 diffEnvC6w "base").trace := by
  have h := (serialize_empty_diff_not_written 2 diffEnvC6w "base" [] (by rfl)
    [] [] (by rfl)).1 (by rfl)
  exact ⟨h.1, h.2⟩

/-! ## C7 — minimal sync-policy override documents -/

lemma saveSyncSettingsStep_fold_fst (ancestors : Option ProfileSyncSettings)
    (config : String → Option CVal) :
    ∀ (props : List String) (acc : List (String × CVal) × Nat),
      (props.foldl (saveSyncSettingsStep ancestors config) acc).1
        = acc.1 ++ props.filterMap (fun p => (config p).map (fun v => (p, v))) := by
  intro props
  induction props with
  | nil => intro acc; simp
  | cons a t ih =>
    intro acc
    rw [List.foldl_cons]
    cases hc : config a with
    | none =>
      rw [show saveSyncSettingsStep ancestors config acc a = acc from by
        unfold saveSyncSettingsStep; rw [hc]]
      rw [ih acc]
      simp [List.filterMap_cons, hc]
    | some v =>
      rw [show saveSyncSettingsStep ancestors config acc a
          = (acc.1 ++ [(a, v)], if (match ancestors with
              | none => true
              | some anc => !(cvalDeepEqualOpt (anc.getField a) v)) then acc.2 + 1 else acc.2)
        from by unfold saveSyncSettingsStep; rw [hc]]
      rw [ih]
      simp [List.filterMap_cons, hc]

lemma saveSyncSettingsStep_fold_snd_zero (ancestors : Option ProfileSyncSettings)
    (config : String → Option CVal) :
    ∀ (props : List String) (acc : List (String × CVal) × Nat),
      ((props.foldl (saveSyncSettingsStep ancestors config) acc).2 = 0
        ↔ acc.2 = 0 ∧ ∀ p ∈ props, ∀ v, config p = some v →
            (match ancestors with
              | none => false
              | some anc => cvalDeepEqualOpt (anc.getField p) v) = true) := by
  intro props
  induction props with
  | nil => intro acc; simp
  | cons a t ih =>
    intro acc
    rw [List.foldl_cons]
    cases hc : config a with
    | none =>
      rw [show saveSyncSettingsStep ancestors config acc a = acc from by
        unfold saveSyncSettingsStep; rw [hc]]
      rw [ih acc]
      constructor
      · rintro ⟨h0, hall⟩
        refine ⟨h0, fun p hp v hv => ?_⟩
        rcases List.mem_cons.mp hp with rfl | hp
        · rw [hc] at hv; exact absurd hv (by simp)
        · exact hall p hp v hv
      · rintro ⟨h0, hall⟩
        exact ⟨h0, fun p hp v hv => hall p (List.mem_cons_of_mem _ hp) v hv⟩
    | some v =>
      rw [show saveSyncSettingsStep ancestors config acc a
          = (acc.1 ++ [(a, v)], if (match ancestors with
              | none => true
              | some anc => !(cvalDeepEqualOpt (anc.getField a) v)) then acc.2 + 1 else acc.2)
        from by unfold saveSyncSettingsStep; rw [hc]]
      rw [ih]
      cases hanc : ancestors with
      | none =>
        simp only [if_pos]
        constructor
        · rintro ⟨h0, -⟩; exact absurd h0 (by simp)
        · rintro ⟨-, hall⟩
          have := hall a (List.mem_cons_self a t) v hc
          exact absurd this (by simp)
      | some anc =>
        by_cases heq : cvalDeepEqualOpt (anc.getField a) v = true
        · rw [if_neg (by simp [heq])]
          constructor
          · rintro ⟨h0, hall⟩
            refine ⟨h0, fun p hp w hw => ?_⟩
            rcases List.mem_cons.mp hp with rfl | hp
            · rw [hc] at hw
              injection hw with hw
              subst hw
              exact heq
            · exact hall p hp w hw
          · rintro ⟨h0, hall⟩
            exact ⟨h0, fun p hp w hw => hall p (List.mem_cons_of_mem _ hp) w hw⟩
        · rw [if_pos (by simp [heq])]
          constructor
          · rintro ⟨h0, -⟩; exact absurd h0 (by simp)
          · rintro ⟨-, hall⟩
            exact absurd (hall a (List.mem_cons_self a t) v hc) heq

lemma saveProfileSyncSettingsT_res {fuel : Nat} {env : Env}
    {config : String → Option CVal} {parent : String} {anc : ProfileSyncSettings}
    (hex : ((env.profileSettings env.profile).getD {}).extendsProfile = some parent)
    (hanc : (loadProfileSyncSettingsT fuel env parent).res = Except.ok anc) :
    (saveProfileSyncSettingsT fuel env config).res
      = Except.ok
          (if (syncSettingsProperties.foldl
                (saveSyncSettingsStep (some anc) config) ([], 0)).2 > 0
            then some (syncSettingsProperties.foldl
                (saveSyncSettingsStep (some anc) config) ([], 0)).1
            else none) := by
  unfold saveProfileSyncSettingsT
  simp only [tbind_res, loadProfileSettingsT, tquery, tpure, hex, hanc, tmutate]
  split <;> simp [tbind_res, tmutate, tpure]

/-- Concrete config for the C7 counterexample: `keybindingsPerPlatform`
is explicitly set and deep-equal to the ancestor's resolved value, and
`ignoredExtensions` is explicitly set and differs. -/
def configC7 (prop : String) : Option CVal :=
  if prop == "keybindingsPerPlatform" then some (.cbool true)
  else if prop == "ignoredExtensions" then some (.cstrs ["x.y"]) else none

/-- Concrete store for C7: `child` extends `root`; the ancestor's
resolved sync settings set `keybindingsPerPlatform := true`. -/
def syncEnvC7 : Env :=
  { profile := "child",
    profileSettings := fun p =>
      if p == "child" then some { extendsProfile := some "root" }
      else if p == "root" then some {} else none,
    syncNew := fun p =>
      if p == "root" then some { keybindingsPerPlatform := some true } else none }

/-- C7 counterexample — the claim says the written override document
contains exactly the policy fields that differ from the ancestor's
resolved value; here `keybindingsPerPlatform` is explicitly set and
deep-equal to the ancestor's value (second conjunct), yet because
`ignoredExtensions` differs, the written document contains both set
fields — the equal field is written too. -/
theorem saveProfileSyncSettings_writes_equal_field :
    (saveProfileSyncSettingsT 2 syncEnvC7 configC7).res
      = Except.ok (some [("keybindingsPerPlatform", CVal.cbool true),
          ("ignoredExtensions", CVal.cstrs ["x.y"])])
    ∧ cvalDeepEqualOpt
        (ProfileSyncSettings.getField ((syncEnvC7.syncNew "root").getD default)
          "keybindingsPerPlatform") (CVal.cbool true) = true := by
  refine ⟨rfl, rfl⟩

/-- C7 amended — for an inheriting profile whose ancestor's sync
settings resolve: the override document is deleted exactly when every
explicitly-set policy field is deep-equal to the ancestor's resolved
value; and whenever a document is written, it contains *all*
explicitly-set policy fields (in the fixed property order) — not only
the differing ones. -/
theorem saveProfileSyncSettings_minimal (fuel : Nat) (env : Env)
    (config : String → Option CVal) (parent : String) (anc : ProfileSyncSettings)
    (hex : ((env.profileSettings env.profile).getD {}).extendsProfile = some parent)
    (hanc : (loadProfileSyncSettingsT fuel env parent).res = Except.ok anc) :
    ((saveProfileSyncSettingsT fuel env config).res = Except.ok none
      ↔ ∀ p ∈ syncSettingsProperties, ∀ v, config p = some v →
          cvalDeepEqualOpt (anc.getField p) v = true)
    ∧ (∀ l, (saveProfileSyncSettingsT fuel env config).res = Except.ok (some l) →
        l = syncSettingsProperties.filterMap (fun p => (config p).map (fun v => (p, v)))) := by
  have hres := @saveProfileSyncSettingsT_res fuel env config parent anc hex hanc
  have hzero := saveSyncSettingsStep_fold_snd_zero (some anc) config syncSettingsProperties ([], 0)
  have hfst := saveSyncSettingsStep_fold_fst (some anc) config syncSettingsProperties ([], 0)
  simp only [List.nil_append] at hfst
  constructor
  · rw [hres]
    by_cases hgt : (syncSettingsProperties.foldl
        (saveSyncSettingsStep (some anc) config) ([], 0)).2 > 0
    · rw [if_pos hgt]
      constructor
      · intro h; exact absurd h (by simp)
      · intro hall
        have h0 : (syncSettingsProperties.foldl
            (saveSyncSettingsStep (some anc) config) ([], 0)).2 = 0 :=
          hzero.mpr ⟨rfl, fun p hp v hv => hall p hp v hv⟩
        rw [h0] at hgt
        exact absurd hgt (by simp)
    · rw [if_neg hgt]
      have h0 : (syncSettingsProperties.foldl
          (saveSyncSettingsStep (some anc) config) ([], 0)).2 = 0 := by
        omega
      constructor
      · intro _
        exact fun p hp v hv => (hzero.mp h0).2 p hp v hv
      · intro _; rfl
  · intro l hl
    rw [hres] at hl
    by_cases hgt : (syncSettingsProperties.foldl
        (saveSyncSettingsStep (some anc) config) ([], 0)).2 > 0
    · rw [if_pos hgt] at hl
      injection hl with hl
      injection hl with hl
      subst hl
      exact hfst
    · rw [if_neg hgt] at hl
      injection hl with hl
      exact absurd hl (by simp)

/-- C7 witness: the amended theorem applied at the concrete store and
config of the counterexample — the written document is exactly the list
of all explicitly-set fields. -/
theorem saveProfileSyncSettings_minimal_witness :
    [("keybindingsPerPlatform", CVal.cbool true), ("ignoredExtensions", CVal.cstrs ["x.y"])]
      = syncSettingsProperties.filterMap (fun p => (configC7 p).map (fun v => (p, v))) :=
  (saveProfileSyncSettings_minimal 2 syncEnvC7 configC7 "root"
    { keybindingsPerPlatform := some true } (by rfl) (by rfl)).2
    [("keybindingsPerPlatform", CVal.cbool true), ("ignoredExtensions", CVal.cstrs ["x.y"])]
    (by rfl)

/-! ## C4 — the modified map of the UI-state diff -/

lemma uiStateModified_fold_eq (profile : List (String × JVal)) :
    ∀ (editor : List (String × JVal)) (acc : List (String × JVal)),
      ((editor.map (·.1)).Nodup) →
      (∀ kv ∈ editor, ∀ kw ∈ acc, kw.1 ≠ kv.1) →
      editor.foldl (fun m kv =>
          if !(jsStrictEqOpt kv.2 (lookupKey profile kv.1)) then setKey m kv.1 kv.2 else m) acc
        = acc ++ editor.filter (fun kv => !(jsStrictEqOpt kv.2 (lookupKey profile kv.1))) := by
  intro editor
  induction editor with
  | nil => intro acc _ _; simp
  | cons a t ih =>
    intro acc hnd hdisj
    rw [List.map_cons, List.nodup_cons] at hnd
    rw [List.foldl_cons]
    by_cases hcond : (!(jsStrictEqOpt a.2 (lookupKey profile a.1))) = true
    · rw [if_pos hcond]
      have hset : setKey acc a.1 a.2 = acc ++ [(a.1, a.2)] := by
        unfold setKey
        rw [if_neg ?_]
        rw [List.any_eq_true]
        rintro ⟨kw, hkw, hbeq⟩
        exact hdisj a (List.mem_cons_self a t) kw hkw (by simpa using hbeq)
      rw [hset]
      rw [ih (acc ++ [(a.1, a.2)]) hnd.2 ?_]
      · rw [List.append_assoc]
        congr 1
        rw [List.filter_cons, if_pos hcond]
        simp
      · intro kv hkv kw hkw
        rcases List.mem_append.mp hkw with hkw | hkw
        · exact hdisj kv (List.mem_cons_of_mem _ hkv) kw hkw
        · rw [List.mem_singleton] at hkw
          subst hkw
          intro heq
          exact hnd.1 (heq ▸ List.mem_map_of_mem (·.1) hkv)
    · rw [if_neg hcond]
      rw [ih acc hnd.2 (fun kv hkv => hdisj kv (List.mem_cons_of_mem _ hkv))]
      rw [List.filter_cons, if_neg hcond]

/-- C4 amended — `serializeUIState` places a key in the diff's
`modified` map if and only if the key is present in the live UI-state
snapshot and its value is *strictly* (`!==`) different from the
ancestor's effective value: value equality for primitives, reference
equality for objects.  A live object value that is deep-equal but not
reference-identical to the ancestor's value *is* included in
`modified` (see the counterexample). -/
theorem uiStateModified_mem (editor profile : List (String × JVal))
    (hnd : (editor.map (·.1)).Nodup) (k : String) (v : JVal) :
    ((k, v) ∈ uiStateModified editor profile
      ↔ (k, v) ∈ editor ∧ jsStrictEqOpt v (lookupKey profile k) = false) := by
  unfold uiStateModified
  rw [uiStateModified_fold_eq profile editor [] hnd (by intro kv _ kw hkw; cases hkw)]
  rw [List.nil_append, List.mem_filter]
  constructor
  · rintro ⟨hm, hc⟩
    exact ⟨hm, by simpa using hc⟩
  · rintro ⟨hm, hc⟩
    exact ⟨hm, by simpa using hc⟩

/-- Concrete store for the C4 counterexample: the ancestor's effective
UI state holds an object value for `panel.state`, and the live store
holds a distinct object (different reference) with identical content. -/
def uiEnvC4 : Env :=
  { profile := "child",
    profileSettings := fun p =>
      if p == "child" then some { extendsProfile := some "base" }
      else if p == "base" then some {} else none,
    uiStateFile := fun p =>
      if p == "base" then some [("panel.state", JVal.jobj 1 [("width", "300")])] else none,
    stateDbRows := fun _ => some [("panel.state", JVal.jobj 2 [("width", "300")])] }

/-- C4 counterexample — the claim says a live key whose value is
deep-equal (though not reference-identical) to the ancestor's effective
value is excluded from `modified`; here the live value is deep-equal to
the ancestor's value (second conjunct) yet the serialize of the
inheriting profile puts the key into `modified` (and writes the diff),
because the source compares with `!==`, not `deepEqual`. -/
theorem serializeUIState_modified_deep_equal_included :
    (serializeUIStateT 2 uiEnvC4 { extendsProfile := some "base" }
        (some { disabled := [], enabled := [] })).res
      = Except.ok (some { modified := [("panel.state", JVal.jobj 2 [("width", "300")])],
                          removed := [] },
          some { modified := [("panel.state", JVal.jobj 2 [("width", "300")])],
                 removed := [] })
    ∧ jsDeepEq (JVal.jobj 2 [("width", "300")]) (JVal.jobj 1 [("width", "300")]) = true
    ∧ jsStrictEq (JVal.jobj 2 [("width", "300")]) (JVal.jobj 1 [("width", "300")]) = false := by
  refine ⟨rfl, rfl, rfl⟩

/-- C4 witness: the amended membership theorem applied at a concrete
snapshot — the deep-equal-but-distinct object is in `modified`. -/
theorem uiStateModified_mem_witness :
    (("panel.state", JVal.jobj 2 [("width", "300")])
        ∈ uiStateModified [("panel.state", JVal.jobj 2 [("width", "300")]),
            ("theme", JVal.jstr "dark")]
          [("panel.state", JVal.jobj 1 [("width", "300")]), ("theme", JVal.jstr "dark")]
      ↔ (("panel.state", JVal.jobj 2 [("width", "300")])
          ∈ [("panel.state", JVal.jobj 2 [("width", "300")]), ("theme", JVal.jstr "dark")]
        ∧ jsStrictEqOpt (JVal.jobj 2 [("width", "300")])
            (lookupKey [("panel.state", JVal.jobj 1 [("width", "300")]),
              ("theme", JVal.jstr "dark")] "panel.state") = false)) :=
  uiStateModified_mem _ _ (by simp) "panel.state" (JVal.jobj 2 [("width", "300")])

/-! ## C3 — restart check precedes every mutation -/

/-- C3 — the restart-necessity determination of `restoreProfile` is
evaluated strictly before any mutation: `shouldRestartApp` itself
performs no mutation (first conjunct, for every resource selection);
the `restoreProfile` trace decomposes into the sync-settings and
ancestor resolution (queries only), then the `shouldRestartApp`
evaluation, and only then the rest (second conjunct), so every mutation
lies strictly after the check; and when the check returns true and the
user declines the confirmation prompt, the whole `restoreProfile` trace
contains no mutation at all — the live environment is untouched (third
conjunct). -/
theorem restoreProfile_checks_before_mutation (fuel : Nat) (env : Env)
    (s : ProfileSyncSettings) (a : String)
    (hs : (loadProfileSyncSettingsT fuel env env.profile).res = Except.ok s)
    (ha : (getAncestorProfileT fuel env env.profile).res = Except.ok a) :
    (∀ resources, QueryOnly (shouldRestartAppT fuel env resources).trace)
    ∧ (∃ post, (restoreProfileT fuel env).trace
        = (loadProfileSyncSettingsT fuel env env.profile).trace
          ++ (getAncestorProfileT fuel env env.profile).trace
          ++ (shouldRestartAppT fuel env (s.resources.getD defaultResources)).trace
          ++ post
        ∧ QueryOnly ((loadProfileSyncSettingsT fuel env env.profile).trace
            ++ (getAncestorProfileT fuel env env.profile).trace))
    ∧ ((shouldRestartAppT fuel env (s.resources.getD defaultResources)).res
          = Except.ok true →
        env.confirmRestart = false →
        QueryOnly (restoreProfileT fuel env).trace) := by
  refine ⟨fun resources => queryOnly_shouldRestartAppT fuel env resources, ?_, ?_⟩
  · have hq := queryOnly_append (queryOnly_loadProfileSyncSettingsT env fuel env.profile)
      (queryOnly_getAncestorProfileT env fuel env.profile)
    cases hres : (shouldRestartAppT fuel env (s.resources.getD defaultResources)).res with
    | ok restart =>
      refine ⟨(if restart then
          tbind (tprompt "The editor will be restarted after applying the profile.") (fun _ =>
            if env.confirmRestart then
              restoreBodyT fuel env s a (s.resources.getD defaultResources) restart
            else tpure ())
        else restoreBodyT fuel env s a (s.resources.getD defaultResources) restart).trace,
        ?_, hq⟩
      unfold restoreProfileT
      rw [tbind_trace]
      simp only [hs]
      rw [tbind_trace]
      simp only [ha]
      rw [tbind_trace]
      simp only [hres]
      simp [List.append_assoc]
    | error msg =>
      refine ⟨[], ?_, hq⟩
      unfold restoreProfileT
      rw [tbind_trace]
      simp only [hs]
      rw [tbind_trace]
      simp only [ha]
      rw [tbind_trace]
      simp only [hres]
      simp [List.append_assoc]
  · intro htrue hconf
    have htr : (restoreProfileT fuel env).trace
        = (loadProfileSyncSettingsT fuel env env.profile).trace
          ++ (getAncestorProfileT fuel env env.profile).trace
          ++ (shouldRestartAppT fuel env (s.resources.getD defaultResources)).trace
          ++ [Event.prompt "The editor will be restarted after applying the profile."] := by
      simp only [restoreProfileT]
      rw [tbind_trace]
      simp only [hs]
      rw [tbind_trace]
      simp only [ha]
      rw [tbind_trace]
      simp only [htrue]
      simp only [if_true]
      rw [tbind_trace]
      simp [tprompt, hconf, tpure, List.append_assoc]
    rw [htr]
    refine queryOnly_append (queryOnly_append (queryOnly_append
      (queryOnly_loadProfileSyncSettingsT env fuel env.profile)
      (queryOnly_getAncestorProfileT env fuel env.profile))
      (queryOnly_shouldRestartAppT fuel env _)) ?_
    intro e he
    rw [List.mem_singleton] at he
    subst he
    rfl

/-- Concrete store for the C3 witness: a root profile whose effective
list has a disabled extension and whose host cannot manage extensions
natively, so the restart check returns true; the user declines. -/
def restartEnvC3 : Env :=
  { profile := "solo",
    profileSettings := fun p => if p == "solo" then some {} else none,
    syncNew := fun p =>
      if p == "solo" then some { resources := some [Resource.extensions] } else none,
    extDoc := fun p =>
      if p == "solo" then
        some { disabled := .recs [⟨"a.one", "u"⟩], enabled := .recs [] }
      else none,
    canManage := false,
    confirmRestart := false }

/-- C3 witness: on the concrete store the restart check returns true,
the user declines, and the whole `restoreProfile` trace is free of
mutations. -/
theorem restoreProfile_checks_before_mutation_witness :
    (restoreProfileT 2 restartEnvC3).trace.all (fun e => !e.isMutation) = true := by
  have h := (restoreProfile_checks_before_mutation 2 restartEnvC3
    { resources := some [Resource.extensions] } "solo" (by rfl) (by rfl)).2.2
    (by rfl) (by rfl)
  rw [List.all_eq_true]
  intro e he
  simpa using h e he

end SyncSettings
